import Mathlib

set_option maxRecDepth 100000

/-!
# TFCcalc recipe-resolution engine: shallow embedding and verification

This file embeds the core calculator of the TFCcalc repository in Lean 4 and
proves/refutes the frozen claims about it.

The repository contains two variants of the calculator module:

* `src/calculator/calculator.go` — embedded below in namespace `CalcA`;
* `src/unnamed/part_000` (a second `package calculator` file, DB-backed) —
  embedded in namespace `CalcB`.

`GetDefaultPercentages`, `ValidatePercentages` and `sumMaterials` are
behaviourally identical in the two files (they differ only in error-message
strings and field names), so they are embedded once, shared by both
namespaces.  `ResolvePercentagesForAlloy` exists only in `part_000`.

Modelling conventions:

* Go `float64` is embedded as `ℚ` (exact arithmetic; all constants in the
  source are decimal literals, exactly representable).
* Go `map[string]float64` is embedded as an association list `QMap` with the
  usual Go map semantics (`findQ` / `insertQ` / `addQ`); Go maps never hold
  duplicate keys, and all maps built by the embedded code keep that invariant.
* Go errors are embedded as the inductive `CalcError`; `fmt.Errorf` sites
  that wrap an inner error with `%w` become the `wrap` constructor.
* The recursion counter `level` of `getBaseMaterialBreakdown` (guard
  `level > 20`, recursive calls at `level+1`) is embedded as the remaining
  fuel `21 - level`, so that the recursion is structural; the wrapper
  `getBaseMaterialBreakdownAt` exposes the source's `level`-based signature.
  `fuel = 0` is exactly the source's `level > 20` guard.
* The catalog (`data.GetAlloyByID`) is an explicit parameter `c : Catalog`;
  the static dataset of `src/data/alloys.go` is `TfcAlloys`.  The DB-backed
  catalog used by `part_000` (its seed `db/schema.sql` is not part of the
  repository sources) is modelled by the same dataset.
* `sql.NullString` validity of `part_000`'s `RawFormID`/`ExtraIngredientID`
  is modelled as the field being non-empty.
* The in-place write `allUserPercentages[id] = fullPercMap` performed by
  `CalculateRequirements` is modelled by explicit state passing: both
  variants return a `CalcResult` holding the result and the caller-visible
  override map after the call.
-/

namespace TFC

/-- Go `map[string]float64`, as an association list (keys unique). -/
abbrev QMap := List (String × ℚ)

/-- Go `map[string]map[string]float64` of user overrides. -/
abbrev OverrideMap := List (String × QMap)

/-- Go map read `v, ok := m[k]`. -/
def findQ : QMap → String → Option ℚ
  | [], _ => none
  | (k1, v1) :: rest, k => if k1 = k then some v1 else findQ rest k

/-- Go map read `m[k]` (missing key reads as `0`). -/
def getQ (m : QMap) (k : String) : ℚ :=
  (findQ m k).getD 0

/-- Go map write `m[k] = v` (replace in place, or append a new key). -/
def insertQ : QMap → String → ℚ → QMap
  | [], k, v => [(k, v)]
  | (k1, v1) :: rest, k, v =>
      if k1 = k then (k1, v) :: rest else (k1, v1) :: insertQ rest k v

/-- Go map update `m[k] += v`. -/
def addQ (m : QMap) (k : String) (v : ℚ) : QMap :=
  insertQ m k (getQ m k + v)

/-- Sum of all values stored in the map. -/
def totalQ (m : QMap) : ℚ :=
  (m.map Prod.snd).sum

/-- Go nested-map read `mm[k]`. -/
def findOv : OverrideMap → String → Option QMap
  | [], _ => none
  | (k1, v1) :: rest, k => if k1 = k then some v1 else findOv rest k

/-- Go nested-map write `mm[k] = v`. -/
def insertOv : OverrideMap → String → QMap → OverrideMap
  | [], k, v => [(k, v)]
  | (k1, v1) :: rest, k, v =>
      if k1 = k then (k1, v) :: rest else (k1, v1) :: insertOv rest k v

/-- Go `math.Abs`. -/
def absQ (x : ℚ) : ℚ :=
  if x < 0 then -x else x

/-- `data.IngredientInfo`: one ingredient of a recipe with its
percentage range (`src/data/alloys.go`). -/
structure IngredientInfo where
  id : String
  min : ℚ
  max : ℚ
  deriving DecidableEq, Repr

/-- `data.AlloyInfo`: one material record of the catalog
(`src/data/alloys.go`; the DB-backed record of `src/data/db.go` carries the
same fields, with `RawFormID`/`ExtraIngredientID` as nullable strings
modelled here as possibly-empty strings). -/
structure AlloyInfo where
  name : String
  type : String
  ingredients : List IngredientInfo := []
  rawForm : String := ""
  extraIngredient : String := ""
  deriving DecidableEq, Repr, Inhabited

/-- The material catalog: identifier → record. -/
abbrev Catalog := List (String × AlloyInfo)

/-- `data.GetAlloyByID`. -/
def GetAlloyByID (c : Catalog) : String → Option AlloyInfo :=
  fun id =>
    match c.find? (fun kv => kv.1 = id) with
    | some kv => some kv.2
    | none => none

/-- `data.GetAlloyNameByID` (display name with an `Unknown[id]` fallback). -/
def GetAlloyNameByID (c : Catalog) (id : String) : String :=
  match GetAlloyByID c id with
  | some alloy => alloy.name
  | none => "Unknown[" ++ id ++ "]"

/-- `data.TfcAlloys`: the static TFC dataset (`src/data/alloys.go`). -/
def TfcAlloys : Catalog := [
  ("copper", { name := "Copper", type := "base" }),
  ("zinc", { name := "Zinc", type := "base" }),
  ("bismuth", { name := "Bismuth", type := "base" }),
  ("silver", { name := "Silver", type := "base" }),
  ("gold", { name := "Gold", type := "base" }),
  ("nickel", { name := "Nickel", type := "base" }),
  ("pig_iron", { name := "Pig Iron", type := "base" }),
  ("steel", { name := "Steel", type := "processed",
              ingredients := [⟨"pig_iron", 100, 100⟩] }),
  ("bismuth_bronze", { name := "Bismuth Bronze", type := "alloy",
                       ingredients := [⟨"zinc", 20, 30⟩, ⟨"copper", 50, 65⟩, ⟨"bismuth", 10, 20⟩] }),
  ("black_bronze", { name := "Black Bronze", type := "alloy",
                     ingredients := [⟨"copper", 50, 70⟩, ⟨"silver", 10, 25⟩, ⟨"gold", 10, 25⟩] }),
  ("brass", { name := "Brass", type := "alloy",
              ingredients := [⟨"copper", 88, 92⟩, ⟨"zinc", 8, 12⟩] }),
  ("rose_gold", { name := "Rose Gold", type := "alloy",
                  ingredients := [⟨"copper", 15, 30⟩, ⟨"gold", 70, 85⟩] }),
  ("sterling_silver", { name := "Sterling Silver", type := "alloy",
                        ingredients := [⟨"copper", 20, 40⟩, ⟨"silver", 60, 80⟩] }),
  ("raw_black_steel", { name := "Raw Black Steel", type := "raw_steel",
                        ingredients := [⟨"steel", 50, 70⟩, ⟨"nickel", 15, 25⟩,
                                        ⟨"black_bronze", 15, 25⟩] }),
  ("raw_blue_steel", { name := "Raw Blue Steel", type := "raw_steel",
                       ingredients := [⟨"black_steel", 50, 55⟩, ⟨"steel", 20, 25⟩,
                                       ⟨"bismuth_bronze", 10, 15⟩, ⟨"sterling_silver", 10, 15⟩] }),
  ("raw_red_steel", { name := "Raw Red Steel", type := "raw_steel",
                      ingredients := [⟨"black_steel", 50, 55⟩, ⟨"steel", 20, 25⟩,
                                      ⟨"brass", 10, 15⟩, ⟨"rose_gold", 10, 15⟩] }),
  ("black_steel", { name := "Black Steel", type := "final_steel",
                    rawForm := "raw_black_steel", extraIngredient := "pig_iron" }),
  ("blue_steel", { name := "Blue Steel", type := "final_steel",
                   rawForm := "raw_blue_steel", extraIngredient := "black_steel" }),
  ("red_steel", { name := "Red Steel", type := "final_steel",
                  rawForm := "raw_red_steel", extraIngredient := "black_steel" })]

/-- Error values returned by the calculator; each constructor corresponds to
one error-producing site in the Go sources, `wrap` to `fmt.Errorf` sites that
wrap an inner error with `%w`.  `noError` stands for Go's `nil` error in the
second component of `ValidatePercentages`'s result. -/
inductive CalcError where
  | noError
  | notFound (id : String)
  | invalidAmount
  | invalidMode
  | incompleteComposite (id : String)
  | internalFirstMissing (ingID alloyID : String)
  | wrongIngredientCount (expected got : Nat) (id : String)
  | ingredientMissing (ingID alloyID : String)
  | percentOutOfRange (ingName : String) (value mn mx : ℚ) (alloyName : String)
  | sumNot100 (alloyName : String) (total : ℚ)
  | cycleSuspected
  | unhandledType (ty id : String)
  | internalPercentMissing (ingID alloyID : String)
  | invalidUserPercentages (name : String) (inner : CalcError)
  | defaultsInvalid (name : String) (inner : CalcError)
  | wrap (ctx : String) (inner : CalcError)
  deriving DecidableEq, Repr

/-- Strip all `wrap` layers (the `%w` chains), exposing the root error. -/
def CalcError.root : CalcError → CalcError
  | .wrap _ inner => inner.root
  | e => e

/-- `GetDefaultPercentages` (identical in `src/calculator/calculator.go`
lines 15–45 and `src/unnamed/part_000` lines 71–99): midpoint of each
ingredient's range, with any drift from 100 beyond `0.01` added wholesale to
the first ingredient in declaration order. -/
def GetDefaultPercentages (c : Catalog) (alloyID : String) : Except CalcError QMap :=
  match GetAlloyByID c alloyID with
  | none => .error (.notFound alloyID)
  | some alloy =>
    if alloy.ingredients.isEmpty then .ok []
    else
      let pt := alloy.ingredients.foldl
        (fun (pt : QMap × ℚ) ing =>
          (insertQ pt.1 ing.id ((ing.min + ing.max) / 2), pt.2 + (ing.min + ing.max) / 2))
        ([], 0)
      let percentages := pt.1
      let total := pt.2
      if absQ (total - 100) > 0.01 ∧ alloy.ingredients ≠ [] then
        match alloy.ingredients with
        | [] => .ok percentages
        | firstIng :: _ =>
          if (findQ percentages firstIng.id).isSome then
            .ok (addQ percentages firstIng.id (100 - total))
          else
            .error (.internalFirstMissing firstIng.id alloyID)
      else .ok percentages

/-- The per-ingredient loop of `ValidatePercentages`: checks presence and
range of each ingredient's value while accumulating the total, then checks
the total against 100. -/
def validateIngredients (c : Catalog) (alloy : AlloyInfo) (percentages : QMap) :
    List IngredientInfo → ℚ → Bool × CalcError
  | [], totalPercent =>
      if absQ (totalPercent - 100) > 0.01 then
        (false, .sumNot100 alloy.name totalPercent)
      else (true, .noError)
  | ingData :: rest, totalPercent =>
      match findQ percentages ingData.id with
      | none => (false, .ingredientMissing ingData.id alloy.name)
      | some percent =>
          if percent < ingData.min - 0.001 ∨ percent > ingData.max + 0.001 then
            (false, .percentOutOfRange (GetAlloyNameByID c ingData.id)
              percent ingData.min ingData.max alloy.name)
          else validateIngredients c alloy percentages rest (totalPercent + percent)

/-- `ValidatePercentages` (identical in `src/calculator/calculator.go`
lines 51–97 and `src/unnamed/part_000` lines 105–141); the second component
is Go's returned `error`, `noError` standing for `nil`. -/
def ValidatePercentages (c : Catalog) (alloyID : String) (percentages : QMap) :
    Bool × CalcError :=
  match GetAlloyByID c alloyID with
  | none => (false, .notFound alloyID)
  | some alloy =>
    if alloy.ingredients.isEmpty then (percentages.isEmpty, .noError)
    else if percentages.isEmpty then (true, .noError)
    else if percentages.length ≠ alloy.ingredients.length then
      (false, .wrongIngredientCount alloy.ingredients.length percentages.length alloyID)
    else validateIngredients c alloy percentages alloy.ingredients 0

/-- `sumMaterials` (identical in both calculator files): key-wise sum of two
material maps. -/
def sumMaterials (materials1 materials2 : QMap) : QMap :=
  materials2.foldl (fun result kv => addQ result kv.1 kv.2) materials1

/-- The fill-missing-ingredients-with-defaults step shared by
`ResolvePercentagesForAlloy` (`part_000` lines 41–51) and the inline blocks
of `calculator.go` (lines 176–190 and 276–290): if the user map has fewer
entries than the ingredient list, add the default value for each missing
ingredient (only when defaults are computable, otherwise leave the map as
is). -/
def fillMissing (c : Catalog) (alloyID : String) (alloy : AlloyInfo) (userPerc : QMap) : QMap :=
  if userPerc.length < alloy.ingredients.length then
    match GetDefaultPercentages c alloyID with
    | .ok defaults =>
        alloy.ingredients.foldl
          (fun m ing =>
            if (findQ m ing.id).isSome then m else insertQ m ing.id (getQ defaults ing.id))
          userPerc
    | .error _ => userPerc
  else userPerc

/-- `ResolvePercentagesForAlloy` (`src/unnamed/part_000` lines 15–66):
defaults on an empty user map; otherwise fill the user map with defaults,
validate it, and fall back to defaults (without failing) when invalid. -/
def ResolvePercentagesForAlloy (c : Catalog) (alloyID : String) (userPerc : QMap) :
    Except CalcError QMap :=
  match GetAlloyByID c alloyID with
  | none => .error (.notFound alloyID)
  | some alloy =>
    if alloy.ingredients.isEmpty then .ok []
    else if userPerc.isEmpty then
      match GetDefaultPercentages c alloyID with
      | .error e => .error (.wrap ("cannot get default percentages for " ++ alloyID) e)
      | .ok defaults => .ok defaults
    else
      let fullPerc := fillMissing c alloyID alloy userPerc
      if (ValidatePercentages c alloyID fullPerc).1 then .ok fullPerc
      else
        match GetDefaultPercentages c alloyID with
        | .error e => .error (.wrap
            ("cannot get default percentages for " ++ alloyID ++ " after invalid user input") e)
        | .ok defaults => .ok defaults

/-- The per-ingredient loop of `getBaseMaterialBreakdown` (identical in
`calculator.go` lines 217–240 and `part_000` lines 221–237): look up the
percentage of each ingredient, skip it when the required amount is below the
`0.001` negligibility threshold, otherwise recurse (`recurse` is the
recursive call at `level+1`) and key-wise sum the per-ingredient results. -/
def expandIngredients (recurse : String → ℚ → Except CalcError QMap)
    (targetID : String) (amountMB : ℚ) (percentagesToUse : QMap) :
    List IngredientInfo → QMap → Except CalcError QMap
  | [], totalBaseMaterials => .ok totalBaseMaterials
  | ingredient :: rest, totalBaseMaterials =>
    match findQ percentagesToUse ingredient.id with
    | none => .error (.internalPercentMissing ingredient.id targetID)
    | some percentage =>
      let requiredIngAmountMB := amountMB * (percentage / 100)
      if requiredIngAmountMB < 0.001 then
        expandIngredients recurse targetID amountMB percentagesToUse rest totalBaseMaterials
      else
        match recurse ingredient.id requiredIngAmountMB with
        | .error e => .error (.wrap
            ("error calculating component " ++ ingredient.id ++ " for " ++ targetID) e)
        | .ok sub =>
          expandIngredients recurse targetID amountMB percentagesToUse rest
            (sumMaterials totalBaseMaterials sub)

/-- Result of `CalculateRequirements`: the returned pair of maps (or error)
together with the caller-visible override map after the call (the source
mutates the caller's map in place; here that effect is explicit state). -/
structure CalcResult where
  result : Except CalcError (QMap × QMap)
  overridesAfter : OverrideMap
  deriving Repr

deriving instance DecidableEq for Except

deriving instance DecidableEq for CalcResult

/- The calculator of `src/calculator/calculator.go` (static catalog). -/
namespace CalcA

/-- `getBaseMaterialBreakdown` (`calculator.go` lines 117–246) with the
recursion counter embedded as remaining fuel `21 - level`: `fuel = 0` is the
source's `level > 20` guard, and each recursive call (made at `level+1` in
the source) runs at `fuel - 1`. -/
def getBaseMaterialBreakdownFuel (c : Catalog) (allUserPercentages : OverrideMap) :
    Nat → String → ℚ → Except CalcError QMap
  | 0, _, _ => .error .cycleSuspected
  | fuel + 1, targetID, amountMB =>
    match GetAlloyByID c targetID with
    | none => .error (.notFound targetID)
    | some targetData =>
      if targetData.type = "base" then .ok [(targetID, amountMB)]
      else if targetID = "steel" then
        getBaseMaterialBreakdownFuel c allUserPercentages fuel "pig_iron" amountMB
      else if targetData.type = "final_steel" then
        if targetData.rawForm = "" ∨ targetData.extraIngredient = "" then
          .error (.incompleteComposite targetID)
        else
          match getBaseMaterialBreakdownFuel c allUserPercentages fuel
              targetData.rawForm amountMB with
          | .error e => .error (.wrap
              ("error calculating raw_form cost (" ++ targetData.rawForm ++ ") for " ++ targetID) e)
          | .ok rawCost =>
            match getBaseMaterialBreakdownFuel c allUserPercentages fuel
                targetData.extraIngredient amountMB with
            | .error e => .error (.wrap
                ("error calculating extra_ingredient cost (" ++ targetData.extraIngredient
                  ++ ") for " ++ targetID) e)
            | .ok extraCost => .ok (sumMaterials rawCost extraCost)
      else if targetData.type = "alloy" ∨ targetData.type = "processed"
          ∨ targetData.type = "raw_steel" then
        if targetData.ingredients.isEmpty then .ok []
        else
          let defaultsPath : Except CalcError QMap :=
            match GetDefaultPercentages c targetID with
            | .error e => .error (.wrap
                ("error getting default percentages for " ++ targetData.name) e)
            | .ok defaults =>
              let vd := ValidatePercentages c targetID defaults
              if vd.1 then .ok defaults else .error (.defaultsInvalid targetData.name vd.2)
          let percentagesToUse : Except CalcError QMap :=
            match findOv allUserPercentages targetID with
            | some specificUserPercentages =>
              if specificUserPercentages.isEmpty then defaultsPath
              else
                let fullPercMap := fillMissing c targetID targetData specificUserPercentages
                if (ValidatePercentages c targetID fullPercMap).1 then .ok fullPercMap
                else defaultsPath
            | none => defaultsPath
          match percentagesToUse with
          | .error e => .error e
          | .ok perc =>
            expandIngredients
              (fun iid req => getBaseMaterialBreakdownFuel c allUserPercentages fuel iid req)
              targetID amountMB perc targetData.ingredients []
      else .error (.unhandledType targetData.type targetID)

/-- `getBaseMaterialBreakdown` with the source's `level`-based signature. -/
def getBaseMaterialBreakdown (c : Catalog) (targetID : String) (amountMB : ℚ)
    (allUserPercentages : OverrideMap) (level : Nat) : Except CalcError QMap :=
  getBaseMaterialBreakdownFuel c allUserPercentages (21 - level) targetID amountMB

/-- The mode-dispatched body of `CalculateRequirements` (`calculator.go`
lines 301–356): Ingot-mode conversion and final-steel special case, plain
breakdown otherwise; in `mB` mode a final steel is reduced to its raw form
only. -/
def runCalc (c : Catalog) (targetID : String) (targetData : AlloyInfo)
    (amount : ℚ) (mode : String) (ups : OverrideMap) : Except CalcError QMap :=
  if mode = "Ingots" then
    let amountMB := amount * 100
    if targetData.type = "final_steel" then
      if targetData.rawForm = "" ∨ targetData.extraIngredient = "" then
        .error (.incompleteComposite targetID)
      else
        match getBaseMaterialBreakdown c targetData.rawForm amountMB ups 0 with
        | .error e => .error (.wrap ("error calculating raw form " ++ targetData.rawForm) e)
        | .ok rawBreakdown =>
          let extra : Except CalcError QMap :=
            if targetData.extraIngredient = "pig_iron" then .ok [("pig_iron", amountMB)]
            else
              match getBaseMaterialBreakdown c targetData.extraIngredient amountMB ups 0 with
              | .error e => .error (.wrap
                  ("error calculating extra ingredient cost (" ++ targetData.extraIngredient
                    ++ ")") e)
              | .ok m => .ok m
          match extra with
          | .error e => .error e
          | .ok extraIngredientBreakdown => .ok (sumMaterials rawBreakdown extraIngredientBreakdown)
    else
      match getBaseMaterialBreakdown c targetID amountMB ups 0 with
      | .error e => .error (.wrap ("error calculating " ++ targetData.name) e)
      | .ok m => .ok m
  else
    let idToCalculate := if targetData.type = "final_steel" then targetData.rawForm else targetID
    match getBaseMaterialBreakdown c idToCalculate amount ups 0 with
    | .error e => .error (.wrap ("error calculating " ++ GetAlloyNameByID c idToCalculate) e)
    | .ok m => .ok m

/-- `CalculateRequirements` (`calculator.go` lines 252–382): input
validation, top-level percentage validation with redirection to `RawForm`
for final steels (writing the filled map back into the caller's override
map), mode-dispatched calculation, negligible-amount filtering, and the
base-material edge case. -/
def CalculateRequirements (c : Catalog) (targetID : String) (amount : ℚ)
    (mode : String) (allUserPercentages : OverrideMap) : CalcResult :=
  if amount ≤ 0 then ⟨.error .invalidAmount, allUserPercentages⟩
  else if mode ≠ "mB" ∧ mode ≠ "Ingots" then ⟨.error .invalidMode, allUserPercentages⟩
  else
    match GetAlloyByID c targetID with
    | none => ⟨.error (.notFound targetID), allUserPercentages⟩
    | some targetData =>
      let idForValidation := if targetData.type = "final_steel" then targetData.rawForm
        else targetID
      let afterValidation : Except CalcError OverrideMap :=
        match findOv allUserPercentages idForValidation with
        | some specificPerc =>
          if specificPerc.isEmpty then .ok allUserPercentages
          else
            let alloyToValidate := (GetAlloyByID c idForValidation).getD default
            let fullPercMap := fillMissing c idForValidation alloyToValidate specificPerc
            let v := ValidatePercentages c idForValidation fullPercMap
            if v.1 then .ok (insertOv allUserPercentages idForValidation fullPercMap)
            else .error (.invalidUserPercentages (GetAlloyNameByID c idForValidation) v.2)
        | none => .ok allUserPercentages
      match afterValidation with
      | .error e => ⟨.error e, allUserPercentages⟩
      | .ok ups =>
        match runCalc c targetID targetData amount mode ups with
        | .error e => ⟨.error e, ups⟩
        | .ok finalMaterialsMB =>
          let resultMB := finalMaterialsMB.filter (fun kv => kv.2 > 0.001)
          let finalMaterialsIngots := resultMB.map (fun kv => (kv.1, kv.2 / 100))
          if resultMB.isEmpty ∧ targetData.type = "base" ∧ mode = "mB" then
            ⟨.ok ([(targetID, amount)], [(targetID, amount / 100)]), ups⟩
          else ⟨.ok (resultMB, finalMaterialsIngots), ups⟩

end CalcA

/- The calculator of `src/unnamed/part_000` (DB-backed catalog; nullable
component references modelled as possibly-empty strings). -/
namespace CalcB

/-- `getBaseMaterialBreakdown` (`part_000` lines 157–242), fuel-embedded as
in `CalcA`.  Differences from `CalcA`: percentage resolution goes through
`ResolvePercentagesForAlloy` whenever an override entry exists (falling back
to defaults and ignoring their error on resolution failure, mirroring
`defaults, _ := GetDefaultPercentages` with a `nil` map read as empty), and
defaults taken on the no-override path are not re-validated. -/
def getBaseMaterialBreakdownFuel (c : Catalog) (allUserPerc : OverrideMap) :
    Nat → String → ℚ → Except CalcError QMap
  | 0, _, _ => .error .cycleSuspected
  | fuel + 1, targetID, amountMB =>
    match GetAlloyByID c targetID with
    | none => .error (.notFound targetID)
    | some targetData =>
      if targetData.type = "base" then .ok [(targetID, amountMB)]
      else if targetID = "steel" then
        getBaseMaterialBreakdownFuel c allUserPerc fuel "pig_iron" amountMB
      else if targetData.type = "final_steel" then
        if targetData.rawForm = "" ∨ targetData.extraIngredient = "" then
          .error (.incompleteComposite targetID)
        else
          match getBaseMaterialBreakdownFuel c allUserPerc fuel targetData.rawForm amountMB with
          | .error e => .error (.wrap ("error calculating rawForm for " ++ targetID) e)
          | .ok rawCost =>
            match getBaseMaterialBreakdownFuel c allUserPerc fuel
                targetData.extraIngredient amountMB with
            | .error e => .error (.wrap ("error calculating extraIngredient for " ++ targetID) e)
            | .ok extraCost => .ok (sumMaterials rawCost extraCost)
      else if targetData.type = "alloy" ∨ targetData.type = "raw_steel"
          ∨ targetData.type = "processed" then
        if targetData.ingredients.isEmpty then .ok []
        else
          let percentagesToUse : Except CalcError QMap :=
            match findOv allUserPerc targetID with
            | some userMap =>
              match ResolvePercentagesForAlloy c targetID userMap with
              | .error _ => .ok ((GetDefaultPercentages c targetID).toOption.getD [])
              | .ok resolved => .ok resolved
            | none =>
              match GetDefaultPercentages c targetID with
              | .error e => .error (.wrap
                  ("cannot get default percentages for " ++ targetData.name) e)
              | .ok defaults => .ok defaults
          match percentagesToUse with
          | .error e => .error e
          | .ok perc =>
            expandIngredients
              (fun iid req => getBaseMaterialBreakdownFuel c allUserPerc fuel iid req)
              targetID amountMB perc targetData.ingredients []
      else .error (.unhandledType targetData.type targetID)

/-- `getBaseMaterialBreakdown` with the source's `level`-based signature. -/
def getBaseMaterialBreakdown (c : Catalog) (targetID : String) (amountMB : ℚ)
    (allUserPerc : OverrideMap) (level : Nat) : Except CalcError QMap :=
  getBaseMaterialBreakdownFuel c allUserPerc (21 - level) targetID amountMB

/-- The calculation body of `part_000`'s `CalculateRequirements`
(lines 283–311): unit conversion first, then — in both modes — a final
steel is the key-wise sum of its raw form and its extra ingredient, each
expanded at the full converted quantity. -/
def runCalc (c : Catalog) (targetID : String) (targetData : AlloyInfo)
    (amount : ℚ) (mode : String) (ups : OverrideMap) : Except CalcError QMap :=
  let amountMB := if mode = "Ingots" then amount * 100 else amount
  if targetData.type = "final_steel" then
    match getBaseMaterialBreakdown c targetData.rawForm amountMB ups 0 with
    | .error e => .error (.wrap ("error calculating raw form for " ++ targetID) e)
    | .ok raw =>
      match getBaseMaterialBreakdown c targetData.extraIngredient amountMB ups 0 with
      | .error e => .error (.wrap ("error calculating extra ingredient for " ++ targetID) e)
      | .ok extra => .ok (sumMaterials raw extra)
  else getBaseMaterialBreakdown c targetID amountMB ups 0

/-- `CalculateRequirements` (`part_000` lines 250–326).  The top-level
override entry (redirected to `RawForm` for final steels) is resolved via
`ResolvePercentagesForAlloy`; a resolution error fails the call, otherwise
the resolved map is written back into the caller's override map (the source
calls the pure resolver a second time for the write-back, with the same
result).  No negligible-amount filter is applied to the results. -/
def CalculateRequirements (c : Catalog) (targetID : String) (amount : ℚ)
    (mode : String) (allUserPerc : OverrideMap) : CalcResult :=
  if amount ≤ 0 then ⟨.error .invalidAmount, allUserPerc⟩
  else if mode ≠ "mB" ∧ mode ≠ "Ingots" then ⟨.error .invalidMode, allUserPerc⟩
  else
    match GetAlloyByID c targetID with
    | none => ⟨.error (.notFound targetID), allUserPerc⟩
    | some targetData =>
      let idForValidation := if targetData.type = "final_steel" then targetData.rawForm
        else targetID
      let afterValidation : Except CalcError OverrideMap :=
        match findOv allUserPerc idForValidation with
        | some userMap =>
          if userMap.isEmpty then .ok allUserPerc
          else
            match ResolvePercentagesForAlloy c idForValidation userMap with
            | .error e => .error
                (.invalidUserPercentages (GetAlloyNameByID c idForValidation) e)
            | .ok resolved => .ok (insertOv allUserPerc idForValidation resolved)
        | none => .ok allUserPerc
      match afterValidation with
      | .error e => ⟨.error e, allUserPerc⟩
      | .ok ups =>
        match runCalc c targetID targetData amount mode ups with
        | .error e => ⟨.error e, ups⟩
        | .ok finalMaterialsMB =>
          let finalMaterialsIngots := finalMaterialsMB.map (fun kv => (kv.1, kv.2 / 100))
          if finalMaterialsMB.isEmpty ∧ targetData.type = "base" ∧ mode = "mB" then
            ⟨.ok ([(targetID, amount)], [(targetID, amount / 100)]), ups⟩
          else ⟨.ok (finalMaterialsMB, finalMaterialsIngots), ups⟩

end CalcB

/-- Root of the error of an `Except` result, if any. -/
def errorRoot (r : Except CalcError QMap) : Option CalcError :=
  match r with
  | .error e => some e.root
  | .ok _ => none

/-- A one-node catalog whose only material lists itself as its sole
ingredient: the ingredient graph has a cycle. -/
def cyclicCatalog : Catalog :=
  [("loop", { name := "Loop", type := "alloy", ingredients := [⟨"loop", 100, 100⟩] })]

/-! ## General lemmas about the map operations -/

theorem findQ_insertQ (m : QMap) (k k2 : String) (v : ℚ) :
    findQ (insertQ m k v) k2 = if k = k2 then some v else findQ m k2 := by
  induction m with
  | nil =>
    by_cases h : k = k2 <;> simp [insertQ, findQ, h]
  | cons kv rest ih =>
    obtain ⟨k1, v1⟩ := kv
    by_cases h1 : k1 = k
    · subst h1
      by_cases h2 : k1 = k2 <;> simp [insertQ, findQ, h2]
    · by_cases h2 : k1 = k2
      · subst h2
        simp [insertQ, findQ, h1, Ne.symm h1]
      · simp [insertQ, findQ, h1, h2, ih]

theorem getQ_addQ (m : QMap) (k k2 : String) (v : ℚ) :
    getQ (addQ m k v) k2 = if k = k2 then getQ m k + v else getQ m k2 := by
  by_cases h : k = k2 <;> simp [addQ, getQ, findQ_insertQ, h]

theorem totalQ_nil : totalQ [] = 0 := rfl

theorem totalQ_cons (k : String) (v : ℚ) (m : QMap) :
    totalQ ((k, v) :: m) = v + totalQ m := by
  simp [totalQ]

theorem totalQ_insertQ_of_findQ_none (m : QMap) (k : String) (v : ℚ)
    (h : findQ m k = none) : totalQ (insertQ m k v) = totalQ m + v := by
  induction m with
  | nil => simp [insertQ, totalQ]
  | cons kv rest ih =>
    obtain ⟨k1, v1⟩ := kv
    by_cases h1 : k1 = k
    · simp [findQ, h1] at h
    · simp only [findQ, h1, if_false] at h
      simp [insertQ, h1, totalQ_cons, ih h]
      ring

theorem totalQ_addQ (m : QMap) (k : String) (v : ℚ) :
    totalQ (addQ m k v) = totalQ m + v := by
  induction m with
  | nil => simp [addQ, insertQ, getQ, findQ, totalQ]
  | cons kv rest ih =>
    obtain ⟨k1, v1⟩ := kv
    by_cases h1 : k1 = k
    · subst h1
      simp [addQ, insertQ, getQ, findQ, totalQ_cons]
      ring
    · have hg : getQ ((k1, v1) :: rest) k = getQ rest k := by
        simp [getQ, findQ, h1]
      simp only [addQ, hg, insertQ, h1, if_false, totalQ_cons]
      have := ih
      simp only [addQ, hg] at this ⊢
      rw [this]
      ring

theorem totalQ_foldl_addQ (l : QMap) (acc : QMap) :
    totalQ (l.foldl (fun r kv => addQ r kv.1 kv.2) acc) = totalQ acc + totalQ l := by
  induction l generalizing acc with
  | nil => simp [totalQ]
  | cons kv rest ih =>
    simp only [List.foldl_cons, ih, totalQ_addQ]
    simp [totalQ]
    ring

/-- `sumMaterials` adds the total quantity mass of its two arguments. -/
theorem totalQ_sumMaterials (m1 m2 : QMap) :
    totalQ (sumMaterials m1 m2) = totalQ m1 + totalQ m2 := by
  simp [sumMaterials, totalQ_foldl_addQ]

/-- Sum of the values of all entries of `l` carrying key `k`. -/
def sumValuesAt (l : QMap) (k : String) : ℚ :=
  ((l.filter (fun kv => kv.1 = k)).map Prod.snd).sum

theorem sumValuesAt_of_not_mem (l : QMap) (k : String)
    (h : k ∉ l.map Prod.fst) : sumValuesAt l k = 0 := by
  induction l with
  | nil => rfl
  | cons kv rest ih =>
    simp only [List.map_cons, List.mem_cons] at h
    push_neg at h
    have h1 : ¬ (kv.1 = k) := fun hk => h.1 hk.symm
    simp only [sumValuesAt, List.filter_cons, decide_eq_true_eq, h1, if_false]
    exact ih h.2

theorem getQ_foldl_addQ (l : QMap) (acc : QMap) (k : String) :
    getQ (l.foldl (fun r kv => addQ r kv.1 kv.2) acc) k = getQ acc k + sumValuesAt l k := by
  induction l generalizing acc with
  | nil => simp [sumValuesAt]
  | cons kv rest ih =>
    obtain ⟨k1, v1⟩ := kv
    by_cases h1 : k1 = k
    · subst h1
      rw [List.foldl_cons, ih, getQ_addQ]
      have hs : sumValuesAt ((k1, v1) :: rest) k1 = v1 + sumValuesAt rest k1 := by
        simp [sumValuesAt, List.filter_cons]
      rw [hs, if_pos rfl]
      ring
    · rw [List.foldl_cons, ih, getQ_addQ]
      have hs : sumValuesAt ((k1, v1) :: rest) k = sumValuesAt rest k := by
        simp [sumValuesAt, List.filter_cons, h1]
      rw [hs, if_neg h1]

theorem sumValuesAt_eq_getQ (l : QMap) (k : String)
    (h : (l.map Prod.fst).Nodup) : sumValuesAt l k = getQ l k := by
  induction l with
  | nil => simp [sumValuesAt, getQ, findQ]
  | cons kv rest ih =>
    obtain ⟨k1, v1⟩ := kv
    simp only [List.map_cons, List.nodup_cons] at h
    by_cases h1 : k1 = k
    · subst h1
      have h0 : sumValuesAt rest k1 = 0 := sumValuesAt_of_not_mem rest k1 h.1
      simp only [sumValuesAt, List.filter_cons, decide_eq_true_eq, if_pos rfl,
        List.map_cons, List.sum_cons, getQ, findQ]
      simp only [sumValuesAt] at h0
      simp [h0]
    · simp only [sumValuesAt, List.filter_cons, decide_eq_true_eq, h1, if_false]
      simp only [sumValuesAt] at ih
      rw [ih h.2]
      simp [getQ, findQ, h1]

/-- Key-wise description of `sumMaterials`: at every key the result holds the
sum of the two inputs' values there (an absent key reads as `0`); the second
argument is a genuine Go map (no duplicate keys). -/
theorem getQ_sumMaterials (m1 m2 : QMap) (k : String)
    (h : (m2.map Prod.fst).Nodup) :
    getQ (sumMaterials m1 m2) k = getQ m1 k + getQ m2 k := by
  simp [sumMaterials, getQ_foldl_addQ, sumValuesAt_eq_getQ m2 k h]

theorem mem_keys_iff_findQ_isSome (m : QMap) (k : String) :
    k ∈ m.map Prod.fst ↔ (findQ m k).isSome := by
  induction m with
  | nil => simp [findQ]
  | cons kv rest ih =>
    obtain ⟨k1, v1⟩ := kv
    simp only [List.map_cons, List.mem_cons, findQ]
    by_cases h1 : k1 = k
    · simp [h1]
    · have h2 : ¬ (k = k1) := fun h => h1 h.symm
      simp [h1, h2, ih]

theorem findQ_foldl_addQ_isSome (l : QMap) (acc : QMap) (k : String) :
    (findQ (l.foldl (fun r kv => addQ r kv.1 kv.2) acc) k).isSome
      ↔ (findQ acc k).isSome ∨ k ∈ l.map Prod.fst := by
  induction l generalizing acc with
  | nil => simp
  | cons kv rest ih =>
    rw [List.foldl_cons, ih]
    have hx : ((findQ (addQ acc kv.1 kv.2) k).isSome : Prop)
        ↔ ((findQ acc k).isSome ∨ kv.1 = k) := by
      rw [addQ, findQ_insertQ]
      by_cases h1 : kv.1 = k <;> simp [h1]
    rw [hx]
    simp only [List.map_cons, List.mem_cons]
    constructor
    · rintro ((h | h) | h)
      · exact Or.inl h
      · exact Or.inr (Or.inl h.symm)
      · exact Or.inr (Or.inr h)
    · rintro (h | h | h)
      · exact Or.inl (Or.inl h)
      · exact Or.inl (Or.inr h.symm)
      · exact Or.inr h

/-- The key set of `sumMaterials` is the union of the two inputs' key sets. -/
theorem findQ_sumMaterials_none_iff (m1 m2 : QMap) (k : String) :
    findQ (sumMaterials m1 m2) k = none ↔ findQ m1 k = none ∧ findQ m2 k = none := by
  have h : (findQ (sumMaterials m1 m2) k).isSome
      ↔ (findQ m1 k).isSome ∨ (findQ m2 k).isSome := by
    rw [← mem_keys_iff_findQ_isSome m2 k]
    exact findQ_foldl_addQ_isSome m2 m1 k
  rw [← Option.not_isSome_iff_eq_none, ← Option.not_isSome_iff_eq_none,
    ← Option.not_isSome_iff_eq_none, h]
  tauto

/-! ## Claim C4 — recursion guard and termination -/

/-- C4: the expander is a total function (its Lean embedding is defined by
structural recursion on the remaining fuel `21 - level`, each recursive call
of the source running at `level + 1`); in both calculator variants any call
entered with `level > 20` returns the `CycleSuspected` error without
recursing, and on a catalog whose ingredient graph has a cycle the expansion
still terminates, returning an error whose root is `CycleSuspected`. -/
theorem c4_depth_guard_terminates :
    (∀ (c : Catalog) (id : String) (q : ℚ) (ups : OverrideMap) (level : Nat),
        level > 20 →
        CalcA.getBaseMaterialBreakdown c id q ups level = .error .cycleSuspected)
  ∧ (∀ (c : Catalog) (id : String) (q : ℚ) (ups : OverrideMap) (level : Nat),
        level > 20 →
        CalcB.getBaseMaterialBreakdown c id q ups level = .error .cycleSuspected)
  ∧ errorRoot (CalcA.getBaseMaterialBreakdown cyclicCatalog "loop" 100 [] 0)
      = some .cycleSuspected
  ∧ errorRoot (CalcB.getBaseMaterialBreakdown cyclicCatalog "loop" 100 [] 0)
      = some .cycleSuspected := by
  refine ⟨?_, ?_, ?_, ?_⟩
  · intro c id q ups level h
    unfold CalcA.getBaseMaterialBreakdown
    rw [Nat.sub_eq_zero_of_le (by omega)]
    rfl
  · intro c id q ups level h
    unfold CalcB.getBaseMaterialBreakdown
    rw [Nat.sub_eq_zero_of_le (by omega)]
    rfl
  · with_unfolding_all decide
  · with_unfolding_all decide

/-- Witness for C4 at a concrete depth above the bound. -/
theorem c4_depth_guard_terminates_witness :
    CalcA.getBaseMaterialBreakdown TfcAlloys "brass" 5 [] 21 = .error .cycleSuspected
  ∧ CalcB.getBaseMaterialBreakdown TfcAlloys "brass" 5 [] 21 = .error .cycleSuspected :=
  ⟨c4_depth_guard_terminates.1 TfcAlloys "brass" 5 [] 21 (by norm_num),
   c4_depth_guard_terminates.2.1 TfcAlloys "brass" 5 [] 21 (by norm_num)⟩

/-! ## Claim C9 — input validation before any expansion -/

/-- C9: in both calculator variants, `CalculateRequirements` fails with the
invalid-amount error for every `amount ≤ 0` (whatever the other arguments),
with the invalid-mode error for every unit string other than `"mB"` and
`"Ingots"` (for positive amounts), and with the not-found error for every
target unknown to the catalog (for positive amounts and recognized units) —
each check deciding the call before any expansion is attempted. -/
theorem c9_input_validation_errors :
    (∀ (c : Catalog) (id : String) (amt : ℚ) (mode : String) (ups : OverrideMap),
        amt ≤ 0 →
        (CalcA.CalculateRequirements c id amt mode ups).result = .error .invalidAmount)
  ∧ (∀ (c : Catalog) (id : String) (amt : ℚ) (mode : String) (ups : OverrideMap),
        0 < amt → mode ≠ "mB" → mode ≠ "Ingots" →
        (CalcA.CalculateRequirements c id amt mode ups).result = .error .invalidMode)
  ∧ (∀ (c : Catalog) (id : String) (amt : ℚ) (mode : String) (ups : OverrideMap),
        0 < amt → (mode = "mB" ∨ mode = "Ingots") → GetAlloyByID c id = none →
        (CalcA.CalculateRequirements c id amt mode ups).result = .error (.notFound id))
  ∧ (∀ (c : Catalog) (id : String) (amt : ℚ) (mode : String) (ups : OverrideMap),
        amt ≤ 0 →
        (CalcB.CalculateRequirements c id amt mode ups).result = .error .invalidAmount)
  ∧ (∀ (c : Catalog) (id : String) (amt : ℚ) (mode : String) (ups : OverrideMap),
        0 < amt → mode ≠ "mB" → mode ≠ "Ingots" →
        (CalcB.CalculateRequirements c id amt mode ups).result = .error .invalidMode)
  ∧ (∀ (c : Catalog) (id : String) (amt : ℚ) (mode : String) (ups : OverrideMap),
        0 < amt → (mode = "mB" ∨ mode = "Ingots") → GetAlloyByID c id = none →
        (CalcB.CalculateRequirements c id amt mode ups).result = .error (.notFound id)) := by
  refine ⟨?_, ?_, ?_, ?_, ?_, ?_⟩
  · intro c id amt mode ups h
    unfold CalcA.CalculateRequirements
    rw [if_pos h]
  · intro c id amt mode ups h hm hi
    unfold CalcA.CalculateRequirements
    rw [if_neg (not_le.mpr h), if_pos ⟨hm, hi⟩]
  · intro c id amt mode ups h hmode hnone
    unfold CalcA.CalculateRequirements
    rw [if_neg (not_le.mpr h), if_neg (by rcases hmode with h1 | h1 <;> simp [h1]), hnone]
  · intro c id amt mode ups h
    unfold CalcB.CalculateRequirements
    rw [if_pos h]
  · intro c id amt mode ups h hm hi
    unfold CalcB.CalculateRequirements
    rw [if_neg (not_le.mpr h), if_pos ⟨hm, hi⟩]
  · intro c id amt mode ups h hmode hnone
    unfold CalcB.CalculateRequirements
    rw [if_neg (not_le.mpr h), if_neg (by rcases hmode with h1 | h1 <;> simp [h1]), hnone]

/-- Witness for C9 at concrete inputs (scenario C of the spec). -/
theorem c9_input_validation_errors_witness :
    (CalcA.CalculateRequirements TfcAlloys "brass" 0 "mB" []).result
        = .error .invalidAmount
  ∧ (CalcA.CalculateRequirements TfcAlloys "brass" 10 "WrongMode" []).result
        = .error .invalidMode
  ∧ (CalcA.CalculateRequirements TfcAlloys "nonexistent" 10 "mB" []).result
        = .error (.notFound "nonexistent")
  ∧ (CalcB.CalculateRequirements TfcAlloys "brass" (-5) "mB" []).result
        = .error .invalidAmount
  ∧ (CalcB.CalculateRequirements TfcAlloys "brass" 10 "WrongMode" []).result
        = .error .invalidMode
  ∧ (CalcB.CalculateRequirements TfcAlloys "nonexistent" 10 "mB" []).result
        = .error (.notFound "nonexistent") :=
  ⟨c9_input_validation_errors.1 TfcAlloys "brass" 0 "mB" [] (by norm_num),
   c9_input_validation_errors.2.1 TfcAlloys "brass" 10 "WrongMode" [] (by norm_num)
     (by decide) (by decide),
   c9_input_validation_errors.2.2.1 TfcAlloys "nonexistent" 10 "mB" [] (by norm_num)
     (Or.inl rfl) (by with_unfolding_all decide),
   c9_input_validation_errors.2.2.2.1 TfcAlloys "brass" (-5) "mB" [] (by norm_num),
   c9_input_validation_errors.2.2.2.2.1 TfcAlloys "brass" 10 "WrongMode" [] (by norm_num)
     (by decide) (by decide),
   c9_input_validation_errors.2.2.2.2.2 TfcAlloys "nonexistent" 10 "mB" [] (by norm_num)
     (Or.inl rfl) (by with_unfolding_all decide)⟩

/-! ## Claim C1 — composite handling at the top level, by unit mode -/

/-- C1 (claim refuted on `calculator.go`, which its own test file
`calculator_test.go` contradicts): for the composite target `black_steel`,
`calculator.go`'s `CalculateRequirements` in fine-unit (`"mB"`) mode expands
only the primary component (`RawForm`), yielding 30 mB of pig iron for
50 mB — whereas the claim (and `part_000`, and the shared test expecting
80) require the key-wise sum of both components at the full converted
quantity.  In coarse-unit (`"Ingots"`) mode `calculator.go` does sum both
components (0.5 ingots = 50 mB → 80 mB of pig iron), as does `part_000` in
both modes. -/
theorem c1_composite_unit_modes_evaluation :
    ((CalcA.CalculateRequirements TfcAlloys "black_steel" 50 "mB" []).result.map
        (fun p => getQ p.1 "pig_iron")) = .ok 30
  ∧ ((CalcA.CalculateRequirements TfcAlloys "black_steel" (1/2) "Ingots" []).result.map
        (fun p => getQ p.1 "pig_iron")) = .ok 80
  ∧ ((CalcB.CalculateRequirements TfcAlloys "black_steel" 50 "mB" []).result.map
        (fun p => getQ p.1 "pig_iron")) = .ok 80
  ∧ ((CalcB.CalculateRequirements TfcAlloys "black_steel" (1/2) "Ingots" []).result.map
        (fun p => getQ p.1 "pig_iron")) = .ok 80 := by
  refine ⟨?_, ?_, ?_, ?_⟩ <;> with_unfolding_all decide

/-! ## Catalog case analysis -/

theorem getAlloyByID_mem (c : Catalog) (id : String) (a : AlloyInfo)
    (h : GetAlloyByID c id = some a) : (id, a) ∈ c := by
  unfold GetAlloyByID at h
  cases hf : c.find? (fun kv => kv.1 = id) with
  | none => rw [hf] at h; exact absurd h (by simp)
  | some kv =>
    rw [hf] at h
    have hkv : kv ∈ c := List.mem_of_find?_eq_some hf
    have hid : kv.1 = id := by
      have := List.find?_some hf
      simpa using this
    have ha : kv.2 = a := by simpa using h
    have hkva : kv = (id, a) := by rw [← hid, ← ha]
    rw [← hkva]
    exact hkv

/-! ## Claim C8 — composite nodes inside the recursion -/

/-- C8: inside the recursion, a `final_steel` node with both component
references set expands to `sumMaterials` of the two components' expansions,
each at the full (unsplit) input quantity; `sumMaterials` holds, at every
key, the sum of its two inputs' values (absent keys reading as `0`), over
the union of the two key sets — and on the concrete overlapping scenario
(`black_steel`, both of whose components decompose to `pig_iron`) the
quantities are summed (600 from the raw form plus 1000 from the extra
ingredient), never overwritten. -/
theorem c8_composite_full_quantity_sum :
    (∀ (c : Catalog) (id : String) (t : AlloyInfo) (q : ℚ) (ups : OverrideMap)
        (level : Nat) (r e : QMap),
        level ≤ 20 → GetAlloyByID c id = some t → t.type = "final_steel" →
        id ≠ "steel" → t.rawForm ≠ "" → t.extraIngredient ≠ "" →
        CalcA.getBaseMaterialBreakdown c t.rawForm q ups (level + 1) = .ok r →
        CalcA.getBaseMaterialBreakdown c t.extraIngredient q ups (level + 1) = .ok e →
        CalcA.getBaseMaterialBreakdown c id q ups level = .ok (sumMaterials r e))
  ∧ (∀ (m1 m2 : QMap) (k : String), (m2.map Prod.fst).Nodup →
        getQ (sumMaterials m1 m2) k = getQ m1 k + getQ m2 k)
  ∧ (∀ (m1 m2 : QMap) (k : String),
        findQ (sumMaterials m1 m2) k = none ↔ findQ m1 k = none ∧ findQ m2 k = none)
  ∧ (CalcA.getBaseMaterialBreakdown TfcAlloys "black_steel" 1000 [] 0).map
        (fun m => getQ m "pig_iron") = .ok 1600
  ∧ (CalcA.getBaseMaterialBreakdown TfcAlloys "raw_black_steel" 1000 [] 1).map
        (fun m => getQ m "pig_iron") = .ok 600
  ∧ (CalcA.getBaseMaterialBreakdown TfcAlloys "pig_iron" 1000 [] 1).map
        (fun m => getQ m "pig_iron") = .ok 1000 := by
  refine ⟨?_, getQ_sumMaterials, findQ_sumMaterials_none_iff, ?_, ?_, ?_⟩
  · intro c id t q ups level r e hlev hlook htype hsteel hraw hextra hr he
    unfold CalcA.getBaseMaterialBreakdown at hr he ⊢
    rw [show 21 - (level + 1) = 20 - level from by omega] at hr he
    rw [show 21 - level = (20 - level) + 1 from by omega]
    rw [CalcA.getBaseMaterialBreakdownFuel]
    simp only [hlook]
    rw [if_neg (show ¬ t.type = "base" from by rw [htype]; decide)]
    rw [if_neg hsteel]
    rw [if_pos htype]
    rw [if_neg (show ¬ (t.rawForm = "" ∨ t.extraIngredient = "") from by
      push_neg
      exact ⟨hraw, hextra⟩)]
    simp only [hr, he]
  · with_unfolding_all decide
  · with_unfolding_all decide
  · with_unfolding_all decide

/-- Witness for C8's generic composite rule at `black_steel` for 100 mB. -/
theorem c8_composite_full_quantity_sum_witness :
    CalcA.getBaseMaterialBreakdown TfcAlloys "black_steel" 100 [] 0
      = .ok (sumMaterials
          [("pig_iron", 60), ("nickel", 20), ("copper", 13),
            ("silver", 7/2), ("gold", 7/2)]
          [("pig_iron", 100)]) :=
  c8_composite_full_quantity_sum.1 TfcAlloys "black_steel"
    { name := "Black Steel", type := "final_steel",
      rawForm := "raw_black_steel", extraIngredient := "pig_iron" }
    100 [] 0
    [("pig_iron", 60), ("nickel", 20), ("copper", 13), ("silver", 7/2), ("gold", 7/2)]
    [("pig_iron", 100)]
    (by norm_num)
    (by with_unfolding_all decide)
    rfl
    (by decide)
    (by decide)
    (by decide)
    (by with_unfolding_all decide)
    (by with_unfolding_all decide)

/-! ## Claim C7 — percentage resolution -/

theorem resolve_empty_eq_defaults :
    ∀ (c : Catalog) (id : String) (d : QMap),
      GetDefaultPercentages c id = .ok d →
      ResolvePercentagesForAlloy c id [] = .ok d := by
  intro c id d hd
  unfold ResolvePercentagesForAlloy
  cases hc : GetAlloyByID c id with
  | none =>
    exfalso
    unfold GetDefaultPercentages at hd
    simp only [hc] at hd
    exact Except.noConfusion hd
  | some alloy =>
    simp only [hc]
    by_cases hing : alloy.ingredients.isEmpty
    · rw [if_pos hing]
      unfold GetDefaultPercentages at hd
      simp only [hc] at hd
      rw [if_pos hing] at hd
      exact hd
    · rw [if_neg hing, if_pos (by decide : (List.isEmpty ([] : QMap)) = true)]
      simp only [hd]

theorem resolve_valid_filled :
    ∀ (c : Catalog) (id : String) (alloy : AlloyInfo) (u : QMap),
      GetAlloyByID c id = some alloy → u ≠ [] →
      (ValidatePercentages c id (fillMissing c id alloy u)).1 = true →
      ResolvePercentagesForAlloy c id u = .ok (fillMissing c id alloy u) := by
  intro c id alloy u hc hu hv
  unfold ResolvePercentagesForAlloy
  simp only [hc]
  by_cases hing : alloy.ingredients.isEmpty
  · exfalso
    unfold ValidatePercentages at hv
    simp only [hc] at hv
    rw [if_pos hing] at hv
    have hnil : alloy.ingredients = [] := List.isEmpty_iff.mp hing
    unfold fillMissing at hv
    rw [hnil] at hv
    rw [if_neg (by simp)] at hv
    simp only [List.isEmpty_iff] at hv
    exact hu hv
  · rw [if_neg hing, if_neg (by simpa using hu), if_pos hv]

theorem resolve_invalid_fallback :
    ∀ (c : Catalog) (id : String) (alloy : AlloyInfo) (u d : QMap),
      GetAlloyByID c id = some alloy → u ≠ [] →
      (ValidatePercentages c id (fillMissing c id alloy u)).1 = false →
      GetDefaultPercentages c id = .ok d →
      ResolvePercentagesForAlloy c id u = .ok d := by
  intro c id alloy u d hc hu hv hd
  unfold ResolvePercentagesForAlloy
  simp only [hc]
  by_cases hing : alloy.ingredients.isEmpty
  · rw [if_pos hing]
    unfold GetDefaultPercentages at hd
    simp only [hc] at hd
    rw [if_pos hing] at hd
    exact hd
  · rw [if_neg hing, if_neg (by simpa using hu)]
    rw [if_neg (by simp [hv])]
    simp only [hd]

/-- C7: `ResolvePercentagesForAlloy` returns exactly the computed defaults
on an empty override; returns the default-filled override unchanged when
that filled map validates; and falls back to the defaults — without failing
the call — when the filled map does not validate. -/
theorem c7_resolve_defaults_and_fallback :
    (∀ (c : Catalog) (id : String) (d : QMap),
        GetDefaultPercentages c id = .ok d →
        ResolvePercentagesForAlloy c id [] = .ok d)
  ∧ (∀ (c : Catalog) (id : String) (alloy : AlloyInfo) (u : QMap),
        GetAlloyByID c id = some alloy → u ≠ [] →
        (ValidatePercentages c id (fillMissing c id alloy u)).1 = true →
        ResolvePercentagesForAlloy c id u = .ok (fillMissing c id alloy u))
  ∧ (∀ (c : Catalog) (id : String) (alloy : AlloyInfo) (u d : QMap),
        GetAlloyByID c id = some alloy → u ≠ [] →
        (ValidatePercentages c id (fillMissing c id alloy u)).1 = false →
        GetDefaultPercentages c id = .ok d →
        ResolvePercentagesForAlloy c id u = .ok d) :=
  ⟨resolve_empty_eq_defaults, resolve_valid_filled, resolve_invalid_fallback⟩

/-- Witness for C7 at `brass`: empty override yields the defaults, the
partial override `copper = 90` filled to `{copper 90, zinc 10}` validates
and is returned, and the invalid override `{copper 95, zinc 5}` falls back
to the defaults. -/
theorem c7_resolve_defaults_and_fallback_witness :
    ResolvePercentagesForAlloy TfcAlloys "brass" [] = .ok [("copper", 90), ("zinc", 10)]
  ∧ ResolvePercentagesForAlloy TfcAlloys "brass" [("copper", 90)]
      = .ok (fillMissing TfcAlloys "brass"
          { name := "Brass", type := "alloy",
            ingredients := [⟨"copper", 88, 92⟩, ⟨"zinc", 8, 12⟩] }
          [("copper", 90)])
  ∧ ResolvePercentagesForAlloy TfcAlloys "brass" [("copper", 95), ("zinc", 5)]
      = .ok [("copper", 90), ("zinc", 10)] :=
  ⟨c7_resolve_defaults_and_fallback.1 TfcAlloys "brass" [("copper", 90), ("zinc", 10)]
      (by with_unfolding_all decide),
   c7_resolve_defaults_and_fallback.2.1 TfcAlloys "brass"
      { name := "Brass", type := "alloy",
        ingredients := [⟨"copper", 88, 92⟩, ⟨"zinc", 8, 12⟩] }
      [("copper", 90)] (by with_unfolding_all decide) (by decide)
      (by with_unfolding_all decide),
   c7_resolve_defaults_and_fallback.2.2 TfcAlloys "brass"
      { name := "Brass", type := "alloy",
        ingredients := [⟨"copper", 88, 92⟩, ⟨"zinc", 8, 12⟩] }
      [("copper", 95), ("zinc", 5)] [("copper", 90), ("zinc", 10)]
      (by with_unfolding_all decide) (by decide)
      (by with_unfolding_all decide) (by with_unfolding_all decide)⟩

/-! ## Claim C6 — default percentages -/

/-- C6: for every catalog material with at least one ingredient,
`GetDefaultPercentages` assigns each ingredient the midpoint of its range,
except that when the midpoint total deviates from 100 by more than `0.01`
the entire deviation is added to the first ingredient in declaration order;
the returned map always sums to within `0.01` of 100. -/
theorem c6_defaults_midpoint_first_adjusted :
    ∀ (id : String) (a : AlloyInfo) (firstIng : IngredientInfo)
      (rest : List IngredientInfo),
      GetAlloyByID TfcAlloys id = some a →
      a.ingredients = firstIng :: rest →
      ∃ m, GetDefaultPercentages TfcAlloys id = .ok m
        ∧ findQ m firstIng.id = some ((firstIng.min + firstIng.max) / 2
            + (if absQ ((((firstIng :: rest).map (fun i => (i.min + i.max) / 2)).sum) - 100)
                  > 0.01
               then 100 - (((firstIng :: rest).map (fun i => (i.min + i.max) / 2)).sum)
               else 0))
        ∧ (∀ ing ∈ rest, ing.id ≠ firstIng.id →
            findQ m ing.id = some ((ing.min + ing.max) / 2))
        ∧ absQ (totalQ m - 100) ≤ 0.01 := by
  intro id a firstIng rest hlook hcons
  have hmem := getAlloyByID_mem TfcAlloys id a hlook
  simp only [TfcAlloys, List.mem_cons, List.not_mem_nil, or_false] at hmem
  rcases hmem with h|h|h|h|h|h|h|h|h|h|h|h|h|h|h|h|h|h|h <;>
    (rw [Prod.mk.injEq] at h; obtain ⟨rfl, rfl⟩ := h) <;>
    (try (exfalso; revert hcons; simp; done)) <;>
    (simp only [List.cons.injEq] at hcons; obtain ⟨rfl, rfl⟩ := hcons)
  · exact ⟨[("pig_iron", 100)], by with_unfolding_all decide,
      by with_unfolding_all decide, by with_unfolding_all decide,
      by with_unfolding_all decide⟩
  · exact ⟨[("zinc", 55/2), ("copper", 115/2), ("bismuth", 15)],
      by with_unfolding_all decide, by with_unfolding_all decide,
      by with_unfolding_all decide, by with_unfolding_all decide⟩
  · exact ⟨[("copper", 65), ("silver", 35/2), ("gold", 35/2)],
      by with_unfolding_all decide, by with_unfolding_all decide,
      by with_unfolding_all decide, by with_unfolding_all decide⟩
  · exact ⟨[("copper", 90), ("zinc", 10)], by with_unfolding_all decide,
      by with_unfolding_all decide, by with_unfolding_all decide,
      by with_unfolding_all decide⟩
  · exact ⟨[("copper", 45/2), ("gold", 155/2)], by with_unfolding_all decide,
      by with_unfolding_all decide, by with_unfolding_all decide,
      by with_unfolding_all decide⟩
  · exact ⟨[("copper", 30), ("silver", 70)], by with_unfolding_all decide,
      by with_unfolding_all decide, by with_unfolding_all decide,
      by with_unfolding_all decide⟩
  · exact ⟨[("steel", 60), ("nickel", 20), ("black_bronze", 20)],
      by with_unfolding_all decide, by with_unfolding_all decide,
      by with_unfolding_all decide, by with_unfolding_all decide⟩
  · exact ⟨[("black_steel", 105/2), ("steel", 45/2), ("bismuth_bronze", 25/2),
        ("sterling_silver", 25/2)],
      by with_unfolding_all decide, by with_unfolding_all decide,
      by with_unfolding_all decide, by with_unfolding_all decide⟩
  · exact ⟨[("black_steel", 105/2), ("steel", 45/2), ("brass", 25/2),
        ("rose_gold", 25/2)],
      by with_unfolding_all decide, by with_unfolding_all decide,
      by with_unfolding_all decide, by with_unfolding_all decide⟩

/-- Witness for C6 at `bismuth_bronze`, whose midpoints sum to 97.5 and
whose first ingredient (`zinc`) therefore absorbs the whole deviation. -/
theorem c6_defaults_midpoint_first_adjusted_witness :
    ∃ m, GetDefaultPercentages TfcAlloys "bismuth_bronze" = .ok m
      ∧ findQ m "zinc" = some ((20 + 30) / 2
          + (if absQ ((([⟨"zinc", 20, 30⟩, ⟨"copper", 50, 65⟩,
                  ⟨"bismuth", 10, 20⟩] : List IngredientInfo).map
                  (fun i => (i.min + i.max) / 2)).sum - 100) > 0.01
             then 100 - (([⟨"zinc", 20, 30⟩, ⟨"copper", 50, 65⟩,
                  ⟨"bismuth", 10, 20⟩] : List IngredientInfo).map
                  (fun i => (i.min + i.max) / 2)).sum
             else 0))
      ∧ (∀ ing ∈ [(⟨"copper", 50, 65⟩ : IngredientInfo), ⟨"bismuth", 10, 20⟩],
          ing.id ≠ "zinc" → findQ m ing.id = some ((ing.min + ing.max) / 2))
      ∧ absQ (totalQ m - 100) ≤ 0.01 :=
  c6_defaults_midpoint_first_adjusted "bismuth_bronze"
    { name := "Bismuth Bronze", type := "alloy",
      ingredients := [⟨"zinc", 20, 30⟩, ⟨"copper", 50, 65⟩, ⟨"bismuth", 10, 20⟩] }
    ⟨"zinc", 20, 30⟩ [⟨"copper", 50, 65⟩, ⟨"bismuth", 10, 20⟩]
    (by with_unfolding_all decide) rfl

/-! ## Claim C5 — percentage validation -/

theorem validateIngredients_true_iff (c : Catalog) (a : AlloyInfo) (perc : QMap) :
    ∀ (l : List IngredientInfo) (t : ℚ),
      ((validateIngredients c a perc l t).1 = true ↔
        ((∀ ing ∈ l, ∃ v, findQ perc ing.id = some v
            ∧ ing.min - 0.001 ≤ v ∧ v ≤ ing.max + 0.001)
          ∧ absQ (t + (l.map (fun ing => getQ perc ing.id)).sum - 100) ≤ 0.01)) := by
  intro l
  induction l with
  | nil =>
    intro t
    unfold validateIngredients
    by_cases h : absQ (t - 100) > 0.01
    · rw [if_pos h]
      simp only [List.not_mem_nil, false_implies, implies_true, true_and, List.map_nil,
        List.sum_nil, add_zero]
      constructor
      · intro hx; exact absurd hx (by simp)
      · intro hx; exact absurd hx (by linarith)
    · rw [if_neg h]
      simp only [List.not_mem_nil, false_implies, implies_true, true_and, List.map_nil,
        List.sum_nil, add_zero]
      constructor
      · intro _; linarith [not_lt.mp h]
      · intro _; trivial
  | cons ing rest ih =>
    intro t
    unfold validateIngredients
    cases hf : findQ perc ing.id with
    | none =>
      simp only [hf]
      constructor
      · intro hx; exact absurd hx (by simp)
      · rintro ⟨hall, _⟩
        obtain ⟨v, hv, _⟩ := hall ing (by simp)
        rw [hf] at hv
        exact absurd hv (by simp)
    | some v =>
      simp only [hf]
      by_cases hrange : v < ing.min - 0.001 ∨ v > ing.max + 0.001
      · rw [if_pos hrange]
        constructor
        · intro hx; exact absurd hx (by simp)
        · rintro ⟨hall, _⟩
          obtain ⟨v2, hv2, hb1, hb2⟩ := hall ing (by simp)
          rw [hf] at hv2
          have hv2x : v = v2 := by injection hv2
          subst hv2x
          rcases hrange with hx | hx
          · linarith
          · linarith
      · rw [if_neg hrange]
        rw [ih (t + v)]
        push_neg at hrange
        obtain ⟨hb1, hb2⟩ := hrange
        have hg : getQ perc ing.id = v := by simp [getQ, hf]
        have hsum_eq : t + v + ((rest.map fun ing => getQ perc ing.id)).sum - 100
            = t + (((ing :: rest).map fun ing => getQ perc ing.id)).sum - 100 := by
          simp only [List.map_cons, List.sum_cons, hg]
          ring
        rw [List.forall_mem_cons]
        constructor
        · rintro ⟨hall, hsum⟩
          exact ⟨⟨⟨v, hf, hb1, hb2⟩, hall⟩, by rw [← hsum_eq]; exact hsum⟩
        · rintro ⟨⟨_, hall⟩, hsum⟩
          exact ⟨hall, by rw [hsum_eq]; exact hsum⟩

theorem validateIngredients_snd (c : Catalog) (a : AlloyInfo) (perc : QMap) :
    ∀ (l : List IngredientInfo) (t : ℚ),
      ((validateIngredients c a perc l t).1 = true
        ↔ (validateIngredients c a perc l t).2 = .noError) := by
  intro l
  induction l with
  | nil =>
    intro t
    unfold validateIngredients
    by_cases h : absQ (t - 100) > 0.01
    · rw [if_pos h]; simp
    · rw [if_neg h]; simp
  | cons ing rest ih =>
    intro t
    unfold validateIngredients
    cases hf : findQ perc ing.id with
    | none => simp [hf]
    | some v =>
      simp only [hf]
      by_cases hrange : v < ing.min - 0.001 ∨ v > ing.max + 0.001
      · rw [if_pos hrange]; simp
      · rw [if_neg hrange]; exact ih (t + v)

/-- C5: for a known material with at least one ingredient, `validate` on a
non-empty map is valid exactly when the map's cardinality matches the
ingredient list, every ingredient's value lies within
`[min − 0.001, max + 0.001]`, and the ingredient values total within `0.01`
of 100; validity comes with no error and invalidity with an error; and an
empty map (with ingredients present) is valid with no error. -/
theorem c5_validate_characterization :
    (∀ (c : Catalog) (id : String) (a : AlloyInfo) (perc : QMap),
      GetAlloyByID c id = some a → a.ingredients ≠ [] → perc ≠ [] →
      (((ValidatePercentages c id perc).1 = true) ↔
        (perc.length = a.ingredients.length
          ∧ (∀ ing ∈ a.ingredients, ∃ v, findQ perc ing.id = some v
              ∧ ing.min - 0.001 ≤ v ∧ v ≤ ing.max + 0.001)
          ∧ absQ ((a.ingredients.map (fun ing => getQ perc ing.id)).sum - 100) ≤ 0.01)))
  ∧ (∀ (c : Catalog) (id : String) (a : AlloyInfo) (perc : QMap),
      GetAlloyByID c id = some a → a.ingredients ≠ [] →
      ((ValidatePercentages c id perc).1 = true
        ↔ (ValidatePercentages c id perc).2 = .noError))
  ∧ (∀ (c : Catalog) (id : String) (a : AlloyInfo),
      GetAlloyByID c id = some a → a.ingredients ≠ [] →
      ValidatePercentages c id [] = (true, .noError)) := by
  refine ⟨?_, ?_, ?_⟩
  · intro c id a perc hlook hing hperc
    unfold ValidatePercentages
    simp only [hlook]
    rw [if_neg (by simpa [List.isEmpty_iff] using hing)]
    rw [if_neg (by simpa [List.isEmpty_iff] using hperc)]
    by_cases hlen : perc.length ≠ a.ingredients.length
    · rw [if_pos hlen]
      constructor
      · intro hx; exact absurd hx (by simp)
      · rintro ⟨hl, _⟩; exact absurd hl hlen
    · rw [if_neg hlen]
      rw [validateIngredients_true_iff]
      constructor
      · rintro ⟨h1, h2⟩
        exact ⟨not_not.mp hlen, h1, by simpa using h2⟩
      · rintro ⟨_, h1, h2⟩
        exact ⟨h1, by simpa using h2⟩
  · intro c id a perc hlook hing
    unfold ValidatePercentages
    simp only [hlook]
    rw [if_neg (by simpa [List.isEmpty_iff] using hing)]
    by_cases hpe : perc.isEmpty
    · rw [if_pos hpe]; simp
    · rw [if_neg hpe]
      by_cases hlen : perc.length ≠ a.ingredients.length
      · rw [if_pos hlen]; simp
      · rw [if_neg hlen]
        exact validateIngredients_snd c a perc a.ingredients 0
  · intro c id a hlook hing
    unfold ValidatePercentages
    simp only [hlook]
    rw [if_neg (by simpa [List.isEmpty_iff] using hing)]
    rw [if_pos (by decide : (List.isEmpty ([] : QMap)) = true)]

/-- Witness for C5 at `brass`: the boundary map `{copper 88, zinc 12}` is
valid with no error, and the empty map is valid with no error. -/
theorem c5_validate_characterization_witness :
    (ValidatePercentages TfcAlloys "brass" [("copper", 88), ("zinc", 12)]).1 = true
  ∧ ValidatePercentages TfcAlloys "brass" [] = (true, .noError) :=
  ⟨(c5_validate_characterization.1 TfcAlloys "brass"
      { name := "Brass", type := "alloy",
        ingredients := [⟨"copper", 88, 92⟩, ⟨"zinc", 8, 12⟩] }
      [("copper", 88), ("zinc", 12)]
      (by with_unfolding_all decide) (by decide) (by decide)).mpr
      (by with_unfolding_all decide),
   c5_validate_characterization.2.2 TfcAlloys "brass"
      { name := "Brass", type := "alloy",
        ingredients := [⟨"copper", 88, 92⟩, ⟨"zinc", 8, 12⟩] }
      (by with_unfolding_all decide) (by decide)⟩

/-! ## Claims C3 and C10 — top-level override handling -/

theorem findOv_insertOv (m : OverrideMap) (k k2 : String) (v : QMap) :
    findOv (insertOv m k v) k2 = if k = k2 then some v else findOv m k2 := by
  induction m with
  | nil =>
    by_cases h : k = k2 <;> simp [insertOv, findOv, h]
  | cons kv rest ih =>
    obtain ⟨k1, v1⟩ := kv
    by_cases h1 : k1 = k
    · subst h1
      by_cases h2 : k1 = k2 <;> simp [insertOv, findOv, h2]
    · by_cases h2 : k1 = k2
      · subst h2
        simp [insertOv, findOv, h1, Ne.symm h1]
      · simp [insertOv, findOv, h1, h2, ih]

/-- C3: for a composite (`final_steel`) target, the top-level override entry
is read at the primary component (`RawForm`), not at the composite
identifier; when that (non-empty) entry cannot be resolved into a valid
percentage map — validation failure of the default-filled map in
`calculator.go`, a resolution error in `part_000` — the entire call fails
with the invalid-user-percentages error; an entry under the composite
identifier itself is ignored, and an invalid override at a *nested* node
only falls back to defaults without failing the call. -/
theorem c3_top_level_redirect_hard_fail :
    (∀ (c : Catalog) (id idv : String) (t av : AlloyInfo) (amount : ℚ) (mode : String)
        (ups : OverrideMap) (sp : QMap),
        0 < amount → (mode = "mB" ∨ mode = "Ingots") →
        GetAlloyByID c id = some t → t.type = "final_steel" →
        idv = t.rawForm →
        GetAlloyByID c idv = some av →
        findOv ups idv = some sp → sp ≠ [] →
        (ValidatePercentages c idv (fillMissing c idv av sp)).1 = false →
        (CalcA.CalculateRequirements c id amount mode ups).result
          = .error (.invalidUserPercentages (GetAlloyNameByID c idv)
              (ValidatePercentages c idv (fillMissing c idv av sp)).2))
  ∧ (∀ (c : Catalog) (id idv : String) (t : AlloyInfo) (amount : ℚ) (mode : String)
        (ups : OverrideMap) (sp : QMap) (e : CalcError),
        0 < amount → (mode = "mB" ∨ mode = "Ingots") →
        GetAlloyByID c id = some t → t.type = "final_steel" →
        idv = t.rawForm →
        findOv ups idv = some sp → sp ≠ [] →
        ResolvePercentagesForAlloy c idv sp = .error e →
        (CalcB.CalculateRequirements c id amount mode ups).result
          = .error (.invalidUserPercentages (GetAlloyNameByID c idv) e))
  ∧ (CalcA.CalculateRequirements TfcAlloys "black_steel" 10 "mB"
        [("black_steel", [("copper", 999)])]).result
      = (CalcA.CalculateRequirements TfcAlloys "black_steel" 10 "mB" []).result
  ∧ (CalcA.CalculateRequirements TfcAlloys "black_steel" 10 "mB"
        [("raw_black_steel", [("steel", 90), ("nickel", 5), ("black_bronze", 5)])]).result
      = .error (.invalidUserPercentages "Raw Black Steel"
          (.percentOutOfRange "Steel" 90 50 70 "Raw Black Steel"))
  ∧ (CalcA.CalculateRequirements TfcAlloys "raw_black_steel" 100 "mB"
        [("black_bronze", [("copper", 999), ("silver", 0), ("gold", 0)])]).result
      = (CalcA.CalculateRequirements TfcAlloys "raw_black_steel" 100 "mB" []).result := by
  refine ⟨?_, ?_, ?_, ?_, ?_⟩
  · intro c id idv t av amount mode ups sp h0 hmode hlook htype hidv hav hov hsp hval
    unfold CalcA.CalculateRequirements
    rw [if_neg (not_le.mpr h0)]
    rw [if_neg (by rcases hmode with h | h <;> simp [h])]
    simp only [hlook]
    have hite : (if t.type = "final_steel" then t.rawForm else id) = idv := by
      rw [htype, if_pos rfl, hidv]
    simp only [hite]
    simp only [hov]
    rw [if_neg (by simpa [List.isEmpty_iff] using hsp)]
    simp only [hav, Option.getD_some]
    rw [if_neg (by simp [hval])]
  · intro c id idv t amount mode ups sp e h0 hmode hlook htype hidv hov hsp hres
    unfold CalcB.CalculateRequirements
    rw [if_neg (not_le.mpr h0)]
    rw [if_neg (by rcases hmode with h | h <;> simp [h])]
    simp only [hlook]
    have hite : (if t.type = "final_steel" then t.rawForm else id) = idv := by
      rw [htype, if_pos rfl, hidv]
    simp only [hite]
    simp only [hov]
    rw [if_neg (by simpa [List.isEmpty_iff] using hsp)]
    simp only [hres]
  · with_unfolding_all decide
  · with_unfolding_all decide
  · with_unfolding_all decide

/-- Witness for C3's generic hard-failure conjuncts: an out-of-range
override keyed by `raw_black_steel` makes the whole `black_steel` call fail
in `calculator.go`'s variant, and a dangling raw-form reference makes the
`part_000` variant fail on resolution. -/
theorem c3_top_level_redirect_hard_fail_witness :
    (CalcA.CalculateRequirements TfcAlloys "black_steel" 10 "mB"
        [("raw_black_steel", [("steel", 90), ("nickel", 5), ("black_bronze", 5)])]).result
      = .error (.invalidUserPercentages (GetAlloyNameByID TfcAlloys "raw_black_steel")
          (ValidatePercentages TfcAlloys "raw_black_steel"
            (fillMissing TfcAlloys "raw_black_steel"
              { name := "Raw Black Steel", type := "raw_steel",
                ingredients := [⟨"steel", 50, 70⟩, ⟨"nickel", 15, 25⟩,
                  ⟨"black_bronze", 15, 25⟩] }
              [("steel", 90), ("nickel", 5), ("black_bronze", 5)])).2)
  ∧ (CalcB.CalculateRequirements
        [("fs", { name := "FS", type := "final_steel",
                  rawForm := "missing", extraIngredient := "pig_iron" })]
        "fs" 10 "mB" [("missing", [("x", 50)])]).result
      = .error (.invalidUserPercentages
          (GetAlloyNameByID
            [("fs", { name := "FS", type := "final_steel", rawForm := "missing", extraIngredient := "pig_iron" })]
            "missing")
          (.notFound "missing")) :=
  ⟨c3_top_level_redirect_hard_fail.1 TfcAlloys "black_steel" "raw_black_steel"
      { name := "Black Steel", type := "final_steel",
        rawForm := "raw_black_steel", extraIngredient := "pig_iron" }
      { name := "Raw Black Steel", type := "raw_steel",
        ingredients := [⟨"steel", 50, 70⟩, ⟨"nickel", 15, 25⟩, ⟨"black_bronze", 15, 25⟩] }
      10 "mB" [("raw_black_steel", [("steel", 90), ("nickel", 5), ("black_bronze", 5)])]
      [("steel", 90), ("nickel", 5), ("black_bronze", 5)]
      (by norm_num) (Or.inl rfl) (by with_unfolding_all decide) rfl rfl
      (by with_unfolding_all decide) (by with_unfolding_all decide) (by decide)
      (by with_unfolding_all decide),
   c3_top_level_redirect_hard_fail.2.1
      [("fs", { name := "FS", type := "final_steel",
                rawForm := "missing", extraIngredient := "pig_iron" })]
      "fs" "missing"
      { name := "FS", type := "final_steel",
        rawForm := "missing", extraIngredient := "pig_iron" }
      10 "mB" [("missing", [("x", 50)])] [("x", 50)] (.notFound "missing")
      (by norm_num) (Or.inl rfl) (by with_unfolding_all decide) rfl rfl
      (by with_unfolding_all decide) (by decide) (by with_unfolding_all decide)⟩

/-- C10: when a non-empty top-level override entry exists at the (possibly
redirected) identifier and its default-filled map validates, both calculator
variants write that filled map back into the caller-supplied override map at
that one key — modelled as the `overridesAfter` state of the call — while
the entries under every other identifier are left unchanged. -/
theorem c10_override_writeback_frame :
    (∀ (c : Catalog) (id idv : String) (t av : AlloyInfo) (amount : ℚ) (mode : String)
        (ups : OverrideMap) (sp : QMap),
        0 < amount → (mode = "mB" ∨ mode = "Ingots") →
        GetAlloyByID c id = some t →
        idv = (if t.type = "final_steel" then t.rawForm else id) →
        GetAlloyByID c idv = some av →
        findOv ups idv = some sp → sp ≠ [] →
        (ValidatePercentages c idv (fillMissing c idv av sp)).1 = true →
        (CalcA.CalculateRequirements c id amount mode ups).overridesAfter
            = insertOv ups idv (fillMissing c idv av sp)
          ∧ ∀ k, k ≠ idv →
              findOv (CalcA.CalculateRequirements c id amount mode ups).overridesAfter k
                = findOv ups k)
  ∧ (∀ (c : Catalog) (id idv : String) (t av : AlloyInfo) (amount : ℚ) (mode : String)
        (ups : OverrideMap) (sp : QMap),
        0 < amount → (mode = "mB" ∨ mode = "Ingots") →
        GetAlloyByID c id = some t →
        idv = (if t.type = "final_steel" then t.rawForm else id) →
        GetAlloyByID c idv = some av →
        findOv ups idv = some sp → sp ≠ [] →
        (ValidatePercentages c idv (fillMissing c idv av sp)).1 = true →
        (CalcB.CalculateRequirements c id amount mode ups).overridesAfter
            = insertOv ups idv (fillMissing c idv av sp)
          ∧ ∀ k, k ≠ idv →
              findOv (CalcB.CalculateRequirements c id amount mode ups).overridesAfter k
                = findOv ups k) := by
  constructor
  · intro c id idv t av amount mode ups sp h0 hmode hlook hidv hav hov hsp hval
    have hafter : (CalcA.CalculateRequirements c id amount mode ups).overridesAfter
        = insertOv ups idv (fillMissing c idv av sp) := by
      unfold CalcA.CalculateRequirements
      rw [if_neg (not_le.mpr h0)]
      rw [if_neg (by rcases hmode with h | h <;> simp [h])]
      simp only [hlook]
      simp only [← hidv]
      simp only [hov]
      rw [if_neg (by simpa [List.isEmpty_iff] using hsp)]
      simp only [hav, Option.getD_some]
      rw [if_pos hval]
      cases hrc : CalcA.runCalc c id t amount mode
          (insertOv ups idv (fillMissing c idv av sp)) with
      | error e => simp [hrc]
      | ok fm =>
        simp only [hrc]
        split <;> rfl
    refine ⟨hafter, ?_⟩
    intro k hk
    rw [hafter, findOv_insertOv]
    rw [if_neg (fun h => hk h.symm)]
  · intro c id idv t av amount mode ups sp h0 hmode hlook hidv hav hov hsp hval
    have hres : ResolvePercentagesForAlloy c idv sp = .ok (fillMissing c idv av sp) :=
      resolve_valid_filled c idv av sp hav (by simpa using hsp) hval
    have hafter : (CalcB.CalculateRequirements c id amount mode ups).overridesAfter
        = insertOv ups idv (fillMissing c idv av sp) := by
      unfold CalcB.CalculateRequirements
      rw [if_neg (not_le.mpr h0)]
      rw [if_neg (by rcases hmode with h | h <;> simp [h])]
      simp only [hlook]
      simp only [← hidv]
      simp only [hov]
      rw [if_neg (by simpa [List.isEmpty_iff] using hsp)]
      simp only [hres]
      cases hrc : CalcB.runCalc c id t amount mode
          (insertOv ups idv (fillMissing c idv av sp)) with
      | error e => simp [hrc]
      | ok fm =>
        simp only [hrc]
        split <;> rfl
    refine ⟨hafter, ?_⟩
    intro k hk
    rw [hafter, findOv_insertOv]
    rw [if_neg (fun h => hk h.symm)]

/-- Witness for C10 at `brass` with the partial override `copper = 90`:
both variants write back the default-filled map `{copper 90, zinc 10}` and
leave other keys (here `steel`) untouched. -/
theorem c10_override_writeback_frame_witness :
    (CalcA.CalculateRequirements TfcAlloys "brass" 10 "mB"
        [("brass", [("copper", 90)])]).overridesAfter
      = insertOv [("brass", [("copper", 90)])] "brass"
          (fillMissing TfcAlloys "brass"
            { name := "Brass", type := "alloy",
              ingredients := [⟨"copper", 88, 92⟩, ⟨"zinc", 8, 12⟩] }
            [("copper", 90)])
  ∧ findOv (CalcA.CalculateRequirements TfcAlloys "brass" 10 "mB"
        [("brass", [("copper", 90)])]).overridesAfter "steel"
      = findOv [("brass", [("copper", 90)])] "steel"
  ∧ (CalcB.CalculateRequirements TfcAlloys "brass" 10 "mB"
        [("brass", [("copper", 90)])]).overridesAfter
      = insertOv [("brass", [("copper", 90)])] "brass"
          (fillMissing TfcAlloys "brass"
            { name := "Brass", type := "alloy",
              ingredients := [⟨"copper", 88, 92⟩, ⟨"zinc", 8, 12⟩] }
            [("copper", 90)]) :=
  ⟨(c10_override_writeback_frame.1 TfcAlloys "brass" "brass"
      { name := "Brass", type := "alloy",
        ingredients := [⟨"copper", 88, 92⟩, ⟨"zinc", 8, 12⟩] }
      { name := "Brass", type := "alloy",
        ingredients := [⟨"copper", 88, 92⟩, ⟨"zinc", 8, 12⟩] }
      10 "mB" [("brass", [("copper", 90)])] [("copper", 90)]
      (by norm_num) (Or.inl rfl) (by with_unfolding_all decide) (by decide)
      (by with_unfolding_all decide) (by with_unfolding_all decide) (by decide)
      (by with_unfolding_all decide)).1,
   (c10_override_writeback_frame.1 TfcAlloys "brass" "brass"
      { name := "Brass", type := "alloy",
        ingredients := [⟨"copper", 88, 92⟩, ⟨"zinc", 8, 12⟩] }
      { name := "Brass", type := "alloy",
        ingredients := [⟨"copper", 88, 92⟩, ⟨"zinc", 8, 12⟩] }
      10 "mB" [("brass", [("copper", 90)])] [("copper", 90)]
      (by norm_num) (Or.inl rfl) (by with_unfolding_all decide) (by decide)
      (by with_unfolding_all decide) (by with_unfolding_all decide) (by decide)
      (by with_unfolding_all decide)).2 "steel" (by decide),
   (c10_override_writeback_frame.2 TfcAlloys "brass" "brass"
      { name := "Brass", type := "alloy",
        ingredients := [⟨"copper", 88, 92⟩, ⟨"zinc", 8, 12⟩] }
      { name := "Brass", type := "alloy",
        ingredients := [⟨"copper", 88, 92⟩, ⟨"zinc", 8, 12⟩] }
      10 "mB" [("brass", [("copper", 90)])] [("copper", 90)]
      (by norm_num) (Or.inl rfl) (by with_unfolding_all decide) (by decide)
      (by with_unfolding_all decide) (by with_unfolding_all decide) (by decide)
      (by with_unfolding_all decide)).1⟩

/-! ## Claim C2 — mass preservation of the simple-alloy expansion -/

theorem findQ_mem (m : QMap) (k : String) (v : ℚ) (h : findQ m k = some v) :
    (k, v) ∈ m := by
  induction m with
  | nil => exact absurd h (by simp [findQ])
  | cons kv rest ih =>
    obtain ⟨k1, v1⟩ := kv
    by_cases h1 : k1 = k
    · subst h1
      simp only [findQ, if_pos rfl] at h
      have : v1 = v := by injection h
      subst this
      exact List.mem_cons_self _ _
    · simp only [findQ, h1, if_false] at h
      exact List.mem_cons_of_mem _ (ih h)

theorem getQ_nonneg (m : QMap) (h : ∀ kv ∈ m, 0 ≤ kv.2) (k : String) :
    0 ≤ getQ m k := by
  unfold getQ
  cases hf : findQ m k with
  | none => simp
  | some v =>
    simpa using h (k, v) (findQ_mem m k v hf)

theorem mem_insertQ (m : QMap) (k : String) (v : ℚ) (kv : String × ℚ)
    (h : kv ∈ insertQ m k v) : kv ∈ m ∨ kv = (k, v) := by
  induction m with
  | nil =>
    simp only [insertQ] at h
    exact Or.inr (by simpa using h)
  | cons kv1 rest ih =>
    obtain ⟨k1, v1⟩ := kv1
    by_cases h1 : k1 = k
    · subst h1
      simp only [insertQ, if_pos rfl] at h
      rcases List.mem_cons.mp h with h2 | h2
      · exact Or.inr (by simpa using h2)
      · exact Or.inl (List.mem_cons_of_mem _ h2)
    · simp only [insertQ, h1, if_false] at h
      rcases List.mem_cons.mp h with h2 | h2
      · exact Or.inl (by simp [h2])
      · rcases ih h2 with h3 | h3
        · exact Or.inl (List.mem_cons_of_mem _ h3)
        · exact Or.inr h3

theorem sumMaterials_nonneg (m1 m2 : QMap)
    (h1 : ∀ kv ∈ m1, 0 ≤ kv.2) (h2 : ∀ kv ∈ m2, 0 ≤ kv.2) :
    ∀ kv ∈ sumMaterials m1 m2, 0 ≤ kv.2 := by
  have main : ∀ (l acc : QMap), (∀ kv ∈ acc, 0 ≤ kv.2) → (∀ kv ∈ l, 0 ≤ kv.2) →
      ∀ kv ∈ l.foldl (fun r kv => addQ r kv.1 kv.2) acc, 0 ≤ kv.2 := by
    intro l
    induction l with
    | nil => intro acc hacc _ kv hkv; exact hacc kv hkv
    | cons kv0 rest ih =>
      intro acc hacc hl kv hkv
      rw [List.foldl_cons] at hkv
      refine ih (addQ acc kv0.1 kv0.2) ?_ (fun x hx => hl x (List.mem_cons_of_mem _ hx)) kv hkv
      intro kv2 hkv2
      rcases mem_insertQ acc kv0.1 (getQ acc kv0.1 + kv0.2) kv2 hkv2 with h | h
      · exact hacc kv2 h
      · rw [h]
        have ha : 0 ≤ getQ acc kv0.1 := getQ_nonneg acc hacc kv0.1
        have hb : 0 ≤ kv0.2 := hl kv0 (List.mem_cons_self _ _)
        simpa using add_nonneg ha hb
  exact main m2 m1 h1 h2

/-- Invariant of the per-ingredient loop: when every listed ingredient has a
percentage, is not pruned, and recursively expands to a mass-preserving
non-negative map, the loop succeeds, adds exactly the ingredients' required
quantities to the accumulator's total, and preserves non-negativity. -/
theorem expandIngredients_spec (recurse : String → ℚ → Except CalcError QMap)
    (tid : String) (q : ℚ) (perc : QMap) :
    ∀ (l : List IngredientInfo) (acc : QMap),
      (∀ ing ∈ l, ∃ v sub, findQ perc ing.id = some v
          ∧ ¬ q * (v / 100) < 0.001
          ∧ recurse ing.id (q * (v / 100)) = .ok sub
          ∧ totalQ sub = q * (v / 100)
          ∧ ∀ kv ∈ sub, 0 ≤ kv.2) →
      ∃ m, expandIngredients recurse tid q perc l acc = .ok m
        ∧ totalQ m = totalQ acc + (l.map (fun ing => q * (getQ perc ing.id / 100))).sum
        ∧ ((∀ kv ∈ acc, 0 ≤ kv.2) → (∀ kv ∈ m, 0 ≤ kv.2)) := by
  intro l
  induction l with
  | nil =>
    intro acc _
    exact ⟨acc, rfl, by simp, fun h => h⟩
  | cons ing rest ih =>
    intro acc hall
    obtain ⟨v, sub, hfind, hnp, hrec, hsub, hsubnn⟩ := hall ing (List.mem_cons_self _ _)
    obtain ⟨m, hm, hsumm, hnnm⟩ :=
      ih (sumMaterials acc sub) (fun x hx => hall x (List.mem_cons_of_mem _ hx))
    refine ⟨m, ?_, ?_, ?_⟩
    · rw [expandIngredients]
      simp only [hfind]
      rw [if_neg hnp]
      simp only [hrec]
      exact hm
    · rw [hsumm, totalQ_sumMaterials, hsub]
      have hg : getQ perc ing.id = v := by simp [getQ, hfind]
      simp only [List.map_cons, List.sum_cons, hg]
      ring
    · intro haccnn
      exact hnnm (sumMaterials_nonneg acc sub haccnn hsubnn)

/-- One unfolding step of the expander at a `base` node. -/
theorem breakdownFuel_base (c : Catalog) (ups : OverrideMap) (fuel : Nat)
    (id : String) (q : ℚ) (a : AlloyInfo)
    (hl : GetAlloyByID c id = some a) (hb : a.type = "base") :
    CalcA.getBaseMaterialBreakdownFuel c ups (fuel + 1) id q = .ok [(id, q)] := by
  rw [CalcA.getBaseMaterialBreakdownFuel]
  simp only [hl]
  rw [if_pos hb]

/-- One unfolding step of the expander at a simple-alloy node with no user
overrides: the loop runs over the node's ingredients with the (validated)
default percentages. -/
theorem breakdownFuel_simple_defaults (c : Catalog) (fuel : Nat) (id : String)
    (q : ℚ) (a : AlloyInfo) (d : QMap)
    (hl : GetAlloyByID c id = some a)
    (hb : ¬ a.type = "base") (hs : ¬ id = "steel") (hf : ¬ a.type = "final_steel")
    (ht : a.type = "alloy" ∨ a.type = "processed" ∨ a.type = "raw_steel")
    (hne : ¬ a.ingredients.isEmpty)
    (hd : GetDefaultPercentages c id = .ok d)
    (hv : (ValidatePercentages c id d).1 = true) :
    CalcA.getBaseMaterialBreakdownFuel c [] (fuel + 1) id q
      = expandIngredients
          (fun iid req => CalcA.getBaseMaterialBreakdownFuel c [] fuel iid req)
          id q d a.ingredients [] := by
  rw [CalcA.getBaseMaterialBreakdownFuel]
  simp only [hl]
  rw [if_neg hb, if_neg hs, if_neg hf, if_pos ht, if_neg hne]
  simp only [show findOv ([] : OverrideMap) id = none from rfl]
  simp only [hd]
  rw [if_pos hv]

theorem brass_eval (fuel : Nat) (q : ℚ) (h0 : 0 < q)
    (h1 : ¬ q * (90 / 100) < 0.001) (h2 : ¬ q * (10 / 100) < 0.001) :
    ∃ m, CalcA.getBaseMaterialBreakdownFuel TfcAlloys [] ((fuel + 1) + 1) "brass" q = .ok m
      ∧ totalQ m = q ∧ ∀ kv ∈ m, 0 ≤ kv.2 := by
  obtain ⟨m, hm, hsum, hnn⟩ := expandIngredients_spec
      (fun iid req => CalcA.getBaseMaterialBreakdownFuel TfcAlloys [] (fuel + 1) iid req)
      "brass" q [("copper", 90), ("zinc", 10)]
      [⟨"copper", 88, 92⟩, ⟨"zinc", 8, 12⟩] []
      (by
        intro ing hing
        simp only [List.mem_cons, List.not_mem_nil, or_false] at hing
        rcases hing with rfl | rfl
        · refine ⟨90, [("copper", q * (90 / 100))], by with_unfolding_all decide, h1,
            breakdownFuel_base TfcAlloys [] fuel "copper" (q * (90 / 100))
              ⟨"Copper", "base", [], "", ""⟩ (by with_unfolding_all decide) rfl,
            by simp [totalQ], ?_⟩
          intro kv hkv
          simp only [List.mem_cons, List.not_mem_nil, or_false] at hkv
          rw [hkv]
          simpa using mul_nonneg (le_of_lt h0) (by norm_num : (0:ℚ) ≤ 90 / 100)
        · refine ⟨10, [("zinc", q * (10 / 100))], by with_unfolding_all decide, h2,
            breakdownFuel_base TfcAlloys [] fuel "zinc" (q * (10 / 100))
              ⟨"Zinc", "base", [], "", ""⟩ (by with_unfolding_all decide) rfl,
            by simp [totalQ], ?_⟩
          intro kv hkv
          simp only [List.mem_cons, List.not_mem_nil, or_false] at hkv
          rw [hkv]
          simpa using mul_nonneg (le_of_lt h0) (by norm_num : (0:ℚ) ≤ 10 / 100))
  refine ⟨m, ?_, ?_, hnn (by simp)⟩
  · rw [breakdownFuel_simple_defaults TfcAlloys (fuel + 1) "brass" q
        ⟨"Brass", "alloy", [⟨"copper", 88, 92⟩, ⟨"zinc", 8, 12⟩], "", ""⟩
        [("copper", 90), ("zinc", 10)]
        (by with_unfolding_all decide) (by decide) (by decide) (by decide)
        (by decide) (by decide) (by with_unfolding_all decide)
        (by with_unfolding_all decide)]
    exact hm
  · rw [hsum]
    have hc : getQ [("copper", (90:ℚ)), ("zinc", 10)] "copper" = 90 := by
      with_unfolding_all decide
    have hz : getQ [("copper", (90:ℚ)), ("zinc", 10)] "zinc" = 10 := by
      with_unfolding_all decide
    simp only [List.map_cons, List.map_nil, List.sum_cons, List.sum_nil, hc, hz]
    rw [show totalQ [] = 0 from rfl]
    ring

theorem steel_eval (fuel : Nat) (q : ℚ) (h0 : 0 < q) :
    ∃ m, CalcA.getBaseMaterialBreakdownFuel TfcAlloys [] ((fuel + 1) + 1) "steel" q = .ok m
      ∧ totalQ m = q ∧ ∀ kv ∈ m, 0 ≤ kv.2 := by
  refine ⟨[("pig_iron", q)], ?_, by simp [totalQ], ?_⟩
  · rw [CalcA.getBaseMaterialBreakdownFuel]
    simp only [show GetAlloyByID TfcAlloys "steel"
        = some ⟨"Steel", "processed", [⟨"pig_iron", 100, 100⟩], "", ""⟩ from by
      with_unfolding_all decide]
    rw [if_pos trivial]
    exact breakdownFuel_base TfcAlloys [] fuel "pig_iron" q
      ⟨"Pig Iron", "base", [], "", ""⟩ (by with_unfolding_all decide) rfl
  · intro kv hkv
    simp only [List.mem_cons, List.not_mem_nil, or_false] at hkv
    rw [hkv]
    simpa using le_of_lt h0

theorem rose_gold_eval (fuel : Nat) (q : ℚ) (h0 : 0 < q)
    (h1 : ¬ q * ((45 / 2) / 100) < 0.001) (h2 : ¬ q * ((155 / 2) / 100) < 0.001) :
    ∃ m, CalcA.getBaseMaterialBreakdownFuel TfcAlloys [] ((fuel + 1) + 1) "rose_gold" q
        = .ok m
      ∧ totalQ m = q ∧ ∀ kv ∈ m, 0 ≤ kv.2 := by
  obtain ⟨m, hm, hsum, hnn⟩ := expandIngredients_spec
      (fun iid req => CalcA.getBaseMaterialBreakdownFuel TfcAlloys [] (fuel + 1) iid req)
      "rose_gold" q [("copper", 45 / 2), ("gold", 155 / 2)]
      [⟨"copper", 15, 30⟩, ⟨"gold", 70, 85⟩] []
      (by
        intro ing hing
        simp only [List.mem_cons, List.not_mem_nil, or_false] at hing
        rcases hing with rfl | rfl
        · refine ⟨45 / 2, [("copper", q * ((45 / 2) / 100))], by with_unfolding_all decide,
            h1, breakdownFuel_base TfcAlloys [] fuel "copper" (q * ((45 / 2) / 100))
              ⟨"Copper", "base", [], "", ""⟩ (by with_unfolding_all decide) rfl,
            by simp [totalQ], ?_⟩
          intro kv hkv
          simp only [List.mem_cons, List.not_mem_nil, or_false] at hkv
          rw [hkv]
          simpa using mul_nonneg (le_of_lt h0) (by norm_num : (0:ℚ) ≤ (45 / 2) / 100)
        · refine ⟨155 / 2, [("gold", q * ((155 / 2) / 100))], by with_unfolding_all decide,
            h2, breakdownFuel_base TfcAlloys [] fuel "gold" (q * ((155 / 2) / 100))
              ⟨"Gold", "base", [], "", ""⟩ (by with_unfolding_all decide) rfl,
            by simp [totalQ], ?_⟩
          intro kv hkv
          simp only [List.mem_cons, List.not_mem_nil, or_false] at hkv
          rw [hkv]
          simpa using mul_nonneg (le_of_lt h0) (by norm_num : (0:ℚ) ≤ (155 / 2) / 100))
  refine ⟨m, ?_, ?_, hnn (by simp)⟩
  · rw [breakdownFuel_simple_defaults TfcAlloys (fuel + 1) "rose_gold" q
        ⟨"Rose Gold", "alloy", [⟨"copper", 15, 30⟩, ⟨"gold", 70, 85⟩], "", ""⟩
        [("copper", 45 / 2), ("gold", 155 / 2)]
        (by with_unfolding_all decide) (by decide) (by decide) (by decide)
        (by decide) (by decide) (by with_unfolding_all decide)
        (by with_unfolding_all decide)]
    exact hm
  · rw [hsum]
    have hc : getQ [("copper", (45:ℚ) / 2), ("gold", 155 / 2)] "copper" = 45 / 2 := by
      with_unfolding_all decide
    have hg : getQ [("copper", (45:ℚ) / 2), ("gold", 155 / 2)] "gold" = 155 / 2 := by
      with_unfolding_all decide
    simp only [List.map_cons, List.map_nil, List.sum_cons, List.sum_nil, hc, hg]
    rw [show totalQ [] = 0 from rfl]
    ring

theorem sterling_silver_eval (fuel : Nat) (q : ℚ) (h0 : 0 < q)
    (h1 : ¬ q * (30 / 100) < 0.001) (h2 : ¬ q * (70 / 100) < 0.001) :
    ∃ m, CalcA.getBaseMaterialBreakdownFuel TfcAlloys [] ((fuel + 1) + 1) "sterling_silver" q
        = .ok m
      ∧ totalQ m = q ∧ ∀ kv ∈ m, 0 ≤ kv.2 := by
  obtain ⟨m, hm, hsum, hnn⟩ := expandIngredients_spec
      (fun iid req => CalcA.getBaseMaterialBreakdownFuel TfcAlloys [] (fuel + 1) iid req)
      "sterling_silver" q [("copper", 30), ("silver", 70)]
      [⟨"copper", 20, 40⟩, ⟨"silver", 60, 80⟩] []
      (by
        intro ing hing
        simp only [List.mem_cons, List.not_mem_nil, or_false] at hing
        rcases hing with rfl | rfl
        · refine ⟨30, [("copper", q * (30 / 100))], by with_unfolding_all decide,
            h1, breakdownFuel_base TfcAlloys [] fuel "copper" (q * (30 / 100))
              ⟨"Copper", "base", [], "", ""⟩ (by with_unfolding_all decide) rfl,
            by simp [totalQ], ?_⟩
          intro kv hkv
          simp only [List.mem_cons, List.not_mem_nil, or_false] at hkv
          rw [hkv]
          simpa using mul_nonneg (le_of_lt h0) (by norm_num : (0:ℚ) ≤ 30 / 100)
        · refine ⟨70, [("silver", q * (70 / 100))], by with_unfolding_all decide,
            h2, breakdownFuel_base TfcAlloys [] fuel "silver" (q * (70 / 100))
              ⟨"Silver", "base", [], "", ""⟩ (by with_unfolding_all decide) rfl,
            by simp [totalQ], ?_⟩
          intro kv hkv
          simp only [List.mem_cons, List.not_mem_nil, or_false] at hkv
          rw [hkv]
          simpa using mul_nonneg (le_of_lt h0) (by norm_num : (0:ℚ) ≤ 70 / 100))
  refine ⟨m, ?_, ?_, hnn (by simp)⟩
  · rw [breakdownFuel_simple_defaults TfcAlloys (fuel + 1) "sterling_silver" q
        ⟨"Sterling Silver", "alloy", [⟨"copper", 20, 40⟩, ⟨"silver", 60, 80⟩], "", ""⟩
        [("copper", 30), ("silver", 70)]
        (by with_unfolding_all decide) (by decide) (by decide) (by decide)
        (by decide) (by decide) (by with_unfolding_all decide)
        (by with_unfolding_all decide)]
    exact hm
  · rw [hsum]
    have hc : getQ [("copper", (30:ℚ)), ("silver", 70)] "copper" = 30 := by
      with_unfolding_all decide
    have hs : getQ [("copper", (30:ℚ)), ("silver", 70)] "silver" = 70 := by
      with_unfolding_all decide
    simp only [List.map_cons, List.map_nil, List.sum_cons, List.sum_nil, hc, hs]
    rw [show totalQ [] = 0 from rfl]
    ring

theorem bismuth_bronze_eval (fuel : Nat) (q : ℚ) (h0 : 0 < q)
    (h1 : ¬ q * ((55 / 2) / 100) < 0.001) (h2 : ¬ q * ((115 / 2) / 100) < 0.001)
    (h3 : ¬ q * (15 / 100) < 0.001) :
    ∃ m, CalcA.getBaseMaterialBreakdownFuel TfcAlloys [] ((fuel + 1) + 1) "bismuth_bronze" q
        = .ok m
      ∧ totalQ m = q ∧ ∀ kv ∈ m, 0 ≤ kv.2 := by
  obtain ⟨m, hm, hsum, hnn⟩ := expandIngredients_spec
      (fun iid req => CalcA.getBaseMaterialBreakdownFuel TfcAlloys [] (fuel + 1) iid req)
      "bismuth_bronze" q [("zinc", 55 / 2), ("copper", 115 / 2), ("bismuth", 15)]
      [⟨"zinc", 20, 30⟩, ⟨"copper", 50, 65⟩, ⟨"bismuth", 10, 20⟩] []
      (by
        intro ing hing
        simp only [List.mem_cons, List.not_mem_nil, or_false] at hing
        rcases hing with rfl | rfl | rfl
        · refine ⟨55 / 2, [("zinc", q * ((55 / 2) / 100))], by with_unfolding_all decide,
            h1, breakdownFuel_base TfcAlloys [] fuel "zinc" (q * ((55 / 2) / 100))
              ⟨"Zinc", "base", [], "", ""⟩ (by with_unfolding_all decide) rfl,
            by simp [totalQ], ?_⟩
          intro kv hkv
          simp only [List.mem_cons, List.not_mem_nil, or_false] at hkv
          rw [hkv]
          simpa using mul_nonneg (le_of_lt h0) (by norm_num : (0:ℚ) ≤ (55 / 2) / 100)
        · refine ⟨115 / 2, [("copper", q * ((115 / 2) / 100))], by with_unfolding_all decide,
            h2, breakdownFuel_base TfcAlloys [] fuel "copper" (q * ((115 / 2) / 100))
              ⟨"Copper", "base", [], "", ""⟩ (by with_unfolding_all decide) rfl,
            by simp [totalQ], ?_⟩
          intro kv hkv
          simp only [List.mem_cons, List.not_mem_nil, or_false] at hkv
          rw [hkv]
          simpa using mul_nonneg (le_of_lt h0) (by norm_num : (0:ℚ) ≤ (115 / 2) / 100)
        · refine ⟨15, [("bismuth", q * (15 / 100))], by with_unfolding_all decide,
            h3, breakdownFuel_base TfcAlloys [] fuel "bismuth" (q * (15 / 100))
              ⟨"Bismuth", "base", [], "", ""⟩ (by with_unfolding_all decide) rfl,
            by simp [totalQ], ?_⟩
          intro kv hkv
          simp only [List.mem_cons, List.not_mem_nil, or_false] at hkv
          rw [hkv]
          simpa using mul_nonneg (le_of_lt h0) (by norm_num : (0:ℚ) ≤ 15 / 100))
  refine ⟨m, ?_, ?_, hnn (by simp)⟩
  · rw [breakdownFuel_simple_defaults TfcAlloys (fuel + 1) "bismuth_bronze" q
        ⟨"Bismuth Bronze", "alloy",
          [⟨"zinc", 20, 30⟩, ⟨"copper", 50, 65⟩, ⟨"bismuth", 10, 20⟩], "", ""⟩
        [("zinc", 55 / 2), ("copper", 115 / 2), ("bismuth", 15)]
        (by with_unfolding_all decide) (by decide) (by decide) (by decide)
        (by decide) (by decide) (by with_unfolding_all decide)
        (by with_unfolding_all decide)]
    exact hm
  · rw [hsum]
    have hz : getQ [("zinc", (55:ℚ) / 2), ("copper", 115 / 2), ("bismuth", 15)] "zinc"
        = 55 / 2 := by with_unfolding_all decide
    have hc : getQ [("zinc", (55:ℚ) / 2), ("copper", 115 / 2), ("bismuth", 15)] "copper"
        = 115 / 2 := by with_unfolding_all decide
    have hb : getQ [("zinc", (55:ℚ) / 2), ("copper", 115 / 2), ("bismuth", 15)] "bismuth"
        = 15 := by with_unfolding_all decide
    simp only [List.map_cons, List.map_nil, List.sum_cons, List.sum_nil, hz, hc, hb]
    rw [show totalQ [] = 0 from rfl]
    ring

theorem black_bronze_eval (fuel : Nat) (q : ℚ) (h0 : 0 < q)
    (h1 : ¬ q * (65 / 100) < 0.001) (h2 : ¬ q * ((35 / 2) / 100) < 0.001) :
    ∃ m, CalcA.getBaseMaterialBreakdownFuel TfcAlloys [] ((fuel + 1) + 1) "black_bronze" q
        = .ok m
      ∧ totalQ m = q ∧ ∀ kv ∈ m, 0 ≤ kv.2 := by
  obtain ⟨m, hm, hsum, hnn⟩ := expandIngredients_spec
      (fun iid req => CalcA.getBaseMaterialBreakdownFuel TfcAlloys [] (fuel + 1) iid req)
      "black_bronze" q [("copper", 65), ("silver", 35 / 2), ("gold", 35 / 2)]
      [⟨"copper", 50, 70⟩, ⟨"silver", 10, 25⟩, ⟨"gold", 10, 25⟩] []
      (by
        intro ing hing
        simp only [List.mem_cons, List.not_mem_nil, or_false] at hing
        rcases hing with rfl | rfl | rfl
        · refine ⟨65, [("copper", q * (65 / 100))], by with_unfolding_all decide,
            h1, breakdownFuel_base TfcAlloys [] fuel "copper" (q * (65 / 100))
              ⟨"Copper", "base", [], "", ""⟩ (by with_unfolding_all decide) rfl,
            by simp [totalQ], ?_⟩
          intro kv hkv
          simp only [List.mem_cons, List.not_mem_nil, or_false] at hkv
          rw [hkv]
          simpa using mul_nonneg (le_of_lt h0) (by norm_num : (0:ℚ) ≤ 65 / 100)
        · refine ⟨35 / 2, [("silver", q * ((35 / 2) / 100))], by with_unfolding_all decide,
            h2, breakdownFuel_base TfcAlloys [] fuel "silver" (q * ((35 / 2) / 100))
              ⟨"Silver", "base", [], "", ""⟩ (by with_unfolding_all decide) rfl,
            by simp [totalQ], ?_⟩
          intro kv hkv
          simp only [List.mem_cons, List.not_mem_nil, or_false] at hkv
          rw [hkv]
          simpa using mul_nonneg (le_of_lt h0) (by norm_num : (0:ℚ) ≤ (35 / 2) / 100)
        · refine ⟨35 / 2, [("gold", q * ((35 / 2) / 100))], by with_unfolding_all decide,
            h2, breakdownFuel_base TfcAlloys [] fuel "gold" (q * ((35 / 2) / 100))
              ⟨"Gold", "base", [], "", ""⟩ (by with_unfolding_all decide) rfl,
            by simp [totalQ], ?_⟩
          intro kv hkv
          simp only [List.mem_cons, List.not_mem_nil, or_false] at hkv
          rw [hkv]
          simpa using mul_nonneg (le_of_lt h0) (by norm_num : (0:ℚ) ≤ (35 / 2) / 100))
  refine ⟨m, ?_, ?_, hnn (by simp)⟩
  · rw [breakdownFuel_simple_defaults TfcAlloys (fuel + 1) "black_bronze" q
        ⟨"Black Bronze", "alloy",
          [⟨"copper", 50, 70⟩, ⟨"silver", 10, 25⟩, ⟨"gold", 10, 25⟩], "", ""⟩
        [("copper", 65), ("silver", 35 / 2), ("gold", 35 / 2)]
        (by with_unfolding_all decide) (by decide) (by decide) (by decide)
        (by decide) (by decide) (by with_unfolding_all decide)
        (by with_unfolding_all decide)]
    exact hm
  · rw [hsum]
    have hc : getQ [("copper", (65:ℚ)), ("silver", 35 / 2), ("gold", 35 / 2)] "copper"
        = 65 := by with_unfolding_all decide
    have hs : getQ [("copper", (65:ℚ)), ("silver", 35 / 2), ("gold", 35 / 2)] "silver"
        = 35 / 2 := by with_unfolding_all decide
    have hg : getQ [("copper", (65:ℚ)), ("silver", 35 / 2), ("gold", 35 / 2)] "gold"
        = 35 / 2 := by with_unfolding_all decide
    simp only [List.map_cons, List.map_nil, List.sum_cons, List.sum_nil, hc, hs, hg]
    rw [show totalQ [] = 0 from rfl]
    ring

theorem raw_black_steel_eval (fuel : Nat) (q : ℚ) (h0 : 0 < q)
    (h1 : ¬ q * (60 / 100) < 0.001) (h2 : ¬ q * (20 / 100) < 0.001)
    (h3 : ¬ q * (20 / 100) * (65 / 100) < 0.001)
    (h4 : ¬ q * (20 / 100) * ((35 / 2) / 100) < 0.001) :
    ∃ m, CalcA.getBaseMaterialBreakdownFuel TfcAlloys []
          (((fuel + 1) + 1) + 1) "raw_black_steel" q = .ok m
      ∧ totalQ m = q ∧ ∀ kv ∈ m, 0 ≤ kv.2 := by
  obtain ⟨ms, hms, hsums, hnns⟩ := steel_eval fuel (q * (60 / 100))
    (mul_pos h0 (by norm_num))
  obtain ⟨mb, hmb, hsumb, hnnb⟩ := black_bronze_eval fuel (q * (20 / 100))
    (mul_pos h0 (by norm_num)) h3 h4
  obtain ⟨m, hm, hsum, hnn⟩ := expandIngredients_spec
      (fun iid req =>
        CalcA.getBaseMaterialBreakdownFuel TfcAlloys [] ((fuel + 1) + 1) iid req)
      "raw_black_steel" q [("steel", 60), ("nickel", 20), ("black_bronze", 20)]
      [⟨"steel", 50, 70⟩, ⟨"nickel", 15, 25⟩, ⟨"black_bronze", 15, 25⟩] []
      (by
        intro ing hing
        simp only [List.mem_cons, List.not_mem_nil, or_false] at hing
        rcases hing with rfl | rfl | rfl
        · exact ⟨60, ms, by with_unfolding_all decide, h1, hms, hsums, hnns⟩
        · refine ⟨20, [("nickel", q * (20 / 100))], by with_unfolding_all decide,
            h2, breakdownFuel_base TfcAlloys [] (fuel + 1) "nickel" (q * (20 / 100))
              ⟨"Nickel", "base", [], "", ""⟩ (by with_unfolding_all decide) rfl,
            by simp [totalQ], ?_⟩
          intro kv hkv
          simp only [List.mem_cons, List.not_mem_nil, or_false] at hkv
          rw [hkv]
          simpa using mul_nonneg (le_of_lt h0) (by norm_num : (0:ℚ) ≤ 20 / 100)
        · exact ⟨20, mb, by with_unfolding_all decide, h2, hmb, hsumb, hnnb⟩)
  refine ⟨m, ?_, ?_, hnn (by simp)⟩
  · rw [breakdownFuel_simple_defaults TfcAlloys ((fuel + 1) + 1) "raw_black_steel" q
        ⟨"Raw Black Steel", "raw_steel",
          [⟨"steel", 50, 70⟩, ⟨"nickel", 15, 25⟩, ⟨"black_bronze", 15, 25⟩], "", ""⟩
        [("steel", 60), ("nickel", 20), ("black_bronze", 20)]
        (by with_unfolding_all decide) (by decide) (by decide) (by decide)
        (by decide) (by decide) (by with_unfolding_all decide)
        (by with_unfolding_all decide)]
    exact hm
  · rw [hsum]
    have ha : getQ [("steel", (60:ℚ)), ("nickel", 20), ("black_bronze", 20)] "steel"
        = 60 := by with_unfolding_all decide
    have hb : getQ [("steel", (60:ℚ)), ("nickel", 20), ("black_bronze", 20)] "nickel"
        = 20 := by with_unfolding_all decide
    have hc : getQ [("steel", (60:ℚ)), ("nickel", 20), ("black_bronze", 20)] "black_bronze"
        = 20 := by with_unfolding_all decide
    simp only [List.map_cons, List.map_nil, List.sum_cons, List.sum_nil, ha, hb, hc]
    rw [show totalQ [] = 0 from rfl]
    ring

/-- The claim's side condition, node by node: no required ingredient
quantity computed during the expansion of the given node (with default
percentages and no overrides) falls below the `0.001` pruning threshold.
Each conjunct is exactly one `requiredIngAmountMB < 0.001` check performed
by the recursion. -/
def noPruneC2 (id : String) (q : ℚ) : Prop :=
  if id = "steel" then True
  else if id = "brass" then
    ¬ q * (90 / 100) < 0.001 ∧ ¬ q * (10 / 100) < 0.001
  else if id = "rose_gold" then
    ¬ q * ((45 / 2) / 100) < 0.001 ∧ ¬ q * ((155 / 2) / 100) < 0.001
  else if id = "sterling_silver" then
    ¬ q * (30 / 100) < 0.001 ∧ ¬ q * (70 / 100) < 0.001
  else if id = "bismuth_bronze" then
    ¬ q * ((55 / 2) / 100) < 0.001 ∧ ¬ q * ((115 / 2) / 100) < 0.001
      ∧ ¬ q * (15 / 100) < 0.001
  else if id = "black_bronze" then
    ¬ q * (65 / 100) < 0.001 ∧ ¬ q * ((35 / 2) / 100) < 0.001
  else if id = "raw_black_steel" then
    ¬ q * (60 / 100) < 0.001 ∧ ¬ q * (20 / 100) < 0.001
      ∧ ¬ q * (20 / 100) * (65 / 100) < 0.001
      ∧ ¬ q * (20 / 100) * ((35 / 2) / 100) < 0.001
  else if id = "raw_blue_steel" then
    ¬ q * ((105 / 2) / 100) < 0.001 ∧ ¬ q * ((45 / 2) / 100) < 0.001
      ∧ ¬ q * ((25 / 2) / 100) < 0.001
      ∧ ¬ q * ((105 / 2) / 100) * (60 / 100) < 0.001
      ∧ ¬ q * ((105 / 2) / 100) * (20 / 100) < 0.001
      ∧ ¬ q * ((105 / 2) / 100) * (20 / 100) * (65 / 100) < 0.001
      ∧ ¬ q * ((105 / 2) / 100) * (20 / 100) * ((35 / 2) / 100) < 0.001
      ∧ ¬ q * ((25 / 2) / 100) * ((55 / 2) / 100) < 0.001
      ∧ ¬ q * ((25 / 2) / 100) * ((115 / 2) / 100) < 0.001
      ∧ ¬ q * ((25 / 2) / 100) * (15 / 100) < 0.001
      ∧ ¬ q * ((25 / 2) / 100) * (30 / 100) < 0.001
      ∧ ¬ q * ((25 / 2) / 100) * (70 / 100) < 0.001
  else if id = "raw_red_steel" then
    ¬ q * ((105 / 2) / 100) < 0.001 ∧ ¬ q * ((45 / 2) / 100) < 0.001
      ∧ ¬ q * ((25 / 2) / 100) < 0.001
      ∧ ¬ q * ((105 / 2) / 100) * (60 / 100) < 0.001
      ∧ ¬ q * ((105 / 2) / 100) * (20 / 100) < 0.001
      ∧ ¬ q * ((105 / 2) / 100) * (20 / 100) * (65 / 100) < 0.001
      ∧ ¬ q * ((105 / 2) / 100) * (20 / 100) * ((35 / 2) / 100) < 0.001
      ∧ ¬ q * ((25 / 2) / 100) * (90 / 100) < 0.001
      ∧ ¬ q * ((25 / 2) / 100) * (10 / 100) < 0.001
      ∧ ¬ q * ((25 / 2) / 100) * ((45 / 2) / 100) < 0.001
      ∧ ¬ q * ((25 / 2) / 100) * ((155 / 2) / 100) < 0.001
  else True

/-- C2 (amended): for every `SIMPLE_ALLOY` node whose expansion does not
pass through a `COMPOSITE` (`final_steel`) node — that is, every such node
of the catalog except `raw_blue_steel` and `raw_red_steel`, whose
ingredient `black_steel` is a composite expanded at double weight — and
every positive quantity crossing no `0.001` pruning threshold, the
expansion succeeds with a map whose values sum to the input quantity
(within `1e-6`) and which contains no negative values. -/
theorem c2_simple_alloy_sum_preserved :
    ∀ id ∈ (["steel", "brass", "rose_gold", "sterling_silver", "bismuth_bronze",
        "black_bronze", "raw_black_steel"] : List String),
      ∀ q : ℚ, 0 < q → noPruneC2 id q →
      ∃ m, CalcA.getBaseMaterialBreakdown TfcAlloys id q [] 0 = .ok m
        ∧ absQ (totalQ m - q) ≤ 1 / 1000000
        ∧ ∀ kv ∈ m, 0 ≤ kv.2 := by
  intro id hid q h0 hnp
  simp only [List.mem_cons, List.not_mem_nil, or_false] at hid
  unfold CalcA.getBaseMaterialBreakdown
  rcases hid with rfl | rfl | rfl | rfl | rfl | rfl | rfl
  · rw [show (21:Nat) - 0 = (19 + 1) + 1 from by norm_num]
    obtain ⟨m, hm, hsum, hnn⟩ := steel_eval 19 q h0
    refine ⟨m, hm, ?_, hnn⟩
    have hz : totalQ m - q = 0 := by rw [hsum]; ring
    rw [hz]; norm_num [absQ]
  · simp only [noPruneC2] at hnp
    obtain ⟨h1, h2⟩ := hnp
    rw [show (21:Nat) - 0 = (19 + 1) + 1 from by norm_num]
    obtain ⟨m, hm, hsum, hnn⟩ := brass_eval 19 q h0 h1 h2
    refine ⟨m, hm, ?_, hnn⟩
    have hz : totalQ m - q = 0 := by rw [hsum]; ring
    rw [hz]; norm_num [absQ]
  · simp only [noPruneC2] at hnp
    obtain ⟨h1, h2⟩ := hnp
    rw [show (21:Nat) - 0 = (19 + 1) + 1 from by norm_num]
    obtain ⟨m, hm, hsum, hnn⟩ := rose_gold_eval 19 q h0 h1 h2
    refine ⟨m, hm, ?_, hnn⟩
    have hz : totalQ m - q = 0 := by rw [hsum]; ring
    rw [hz]; norm_num [absQ]
  · simp only [noPruneC2] at hnp
    obtain ⟨h1, h2⟩ := hnp
    rw [show (21:Nat) - 0 = (19 + 1) + 1 from by norm_num]
    obtain ⟨m, hm, hsum, hnn⟩ := sterling_silver_eval 19 q h0 h1 h2
    refine ⟨m, hm, ?_, hnn⟩
    have hz : totalQ m - q = 0 := by rw [hsum]; ring
    rw [hz]; norm_num [absQ]
  · simp only [noPruneC2] at hnp
    obtain ⟨h1, h2, h3⟩ := hnp
    rw [show (21:Nat) - 0 = (19 + 1) + 1 from by norm_num]
    obtain ⟨m, hm, hsum, hnn⟩ := bismuth_bronze_eval 19 q h0 h1 h2 h3
    refine ⟨m, hm, ?_, hnn⟩
    have hz : totalQ m - q = 0 := by rw [hsum]; ring
    rw [hz]; norm_num [absQ]
  · simp only [noPruneC2] at hnp
    obtain ⟨h1, h2⟩ := hnp
    rw [show (21:Nat) - 0 = (19 + 1) + 1 from by norm_num]
    obtain ⟨m, hm, hsum, hnn⟩ := black_bronze_eval 19 q h0 h1 h2
    refine ⟨m, hm, ?_, hnn⟩
    have hz : totalQ m - q = 0 := by rw [hsum]; ring
    rw [hz]; norm_num [absQ]
  · simp only [noPruneC2] at hnp
    obtain ⟨h1, h2, h3, h4⟩ := hnp
    rw [show (21:Nat) - 0 = ((18 + 1) + 1) + 1 from by norm_num]
    obtain ⟨m, hm, hsum, hnn⟩ := raw_black_steel_eval 18 q h0 h1 h2 h3 h4
    refine ⟨m, hm, ?_, hnn⟩
    have hz : totalQ m - q = 0 := by rw [hsum]; ring
    rw [hz]; norm_num [absQ]

/-- Counterexample for C2 as literally stated: `raw_blue_steel` is a
`SIMPLE_ALLOY` (`raw_steel`) node with ingredients, `q = 1000` is positive
and crosses no pruning threshold, yet the expanded values sum to 1525 — off
the input quantity by far more than `1e-6`, because the composite
ingredient `black_steel` expands at double weight. -/
theorem c2_counterexample_raw_blue_steel :
    GetAlloyByID TfcAlloys "raw_blue_steel"
        = some ⟨"Raw Blue Steel", "raw_steel",
            [⟨"black_steel", 50, 55⟩, ⟨"steel", 20, 25⟩, ⟨"bismuth_bronze", 10, 15⟩,
              ⟨"sterling_silver", 10, 15⟩], "", ""⟩
  ∧ noPruneC2 "raw_blue_steel" 1000
  ∧ (CalcA.getBaseMaterialBreakdown TfcAlloys "raw_blue_steel" 1000 [] 0).map totalQ
      = .ok 1525
  ∧ ¬ absQ ((1525 : ℚ) - 1000) ≤ 1 / 1000000 := by
  refine ⟨by with_unfolding_all decide, by norm_num [noPruneC2],
    by with_unfolding_all decide, by norm_num [absQ]⟩

/-- Witness for the amended C2 at `brass` for 100 mB. -/
theorem c2_simple_alloy_sum_preserved_witness :
    ∃ m, CalcA.getBaseMaterialBreakdown TfcAlloys "brass" 100 [] 0 = .ok m
      ∧ absQ (totalQ m - 100) ≤ 1 / 1000000
      ∧ ∀ kv ∈ m, 0 ≤ kv.2 :=
  c2_simple_alloy_sum_preserved "brass" (by decide) 100 (by norm_num)
    (by norm_num [noPruneC2])

end TFC
